import Mathlib

/-!
Verification of the xcfg request-lifecycle engine against its
natural-language specification.

The definitions below are a shallow embedding of the JavaScript sources:
  - src/core/stableJson.js   (stableStringify / canonicalize)
  - src/server.js            (fingerprintEnvelope, admission, callback fold)
  - src/core/engine.js       (XCFGEngine: executePlan, rollupStatus,
                              topoSortTasks, seedTaskResults,
                              cancelBlockedTasks, listRunnableTasks, ...)
  - src/core/requestStore.js (InMemoryRequestStore.listByStatus)
  - src/core/envelope.js     (isXcfgEnvelope)
  - src/core/plan.js         (isTaskStatus)

Modelling conventions:
  - JavaScript values flowing through the canonical-fingerprint path are
    modelled by the inductive type JVal; object key order is the field-list
    order, and the distinguished value undefined is JVal.undef.
  - Array.prototype.sort with a consistent comparator (localeCompare on
    keys that are pairwise distinct) is modelled by List.insertionSort with
    the lexicographic order on String; on duplicate-free key lists every
    correct sort computes the same list, so the choice of algorithm is
    immaterial.
  - Truthiness tests on ISO-8601 timestamp strings and external ids
    (always non-empty when produced by the code) are modelled by
    Option.isSome.
  - Timestamps taken during one engine step are modelled by a single
    parameter now, and adapter calls are modelled as pure functions of the
    task (the adapter context does not influence the control flow of the
    engine).
-/

/-! ## JavaScript values and the canonical JSON serialization -/

/-- A JSON-ish JavaScript value. Objects are ordered field lists; `undef`
is the JavaScript value `undefined`, distinct from `null`. -/
inductive JVal where
  | null : JVal
  | undef : JVal
  | bool : Bool → JVal
  | num : Int → JVal
  | str : String → JVal
  | arr : List JVal → JVal
  | obj : List (String × JVal) → JVal

/-- Whether a value is the JavaScript `undefined`. -/
def JVal.isUndef : JVal → Bool
  | .undef => true
  | _ => false

/-- First-match lookup of a key in an object field list (JS property
access: object keys are unique, so first match is the value). -/
def lookupF (k : String) : List (String × JVal) → Option JVal
  | [] => none
  | (k', v) :: fs => if k' = k then some v else lookupF k fs

/-- The key order used by stableJson.js (`localeCompare` on the pairwise
distinct keys of a JS object), modelled as lexicographic order on the
character lists. -/
def keyLe (a b : String) : Prop := a.data ≤ b.data

instance : DecidableRel keyLe := fun a b =>
  inferInstanceAs (Decidable (a.data ≤ b.data))

instance : IsTotal String keyLe := ⟨fun a b => le_total a.data b.data⟩

instance : IsTrans String keyLe := ⟨fun _ _ _ h h2 => le_trans h h2⟩

/-- Strict version of the key order. -/
def keyLt (a b : String) : Prop := a.data < b.data

instance : DecidableRel keyLt := fun a b =>
  inferInstanceAs (Decidable (a.data < b.data))

instance : IsAntisymm String keyLt :=
  ⟨fun _ _ h h2 => absurd (lt_trans h h2) (lt_irrefl _)⟩

theorem String.data_inj {a b : String} (h : a.data = b.data) : a = b := by
  cases a; cases b; exact congrArg String.mk h

theorem keyLe_antisymm {a b : String} (h : keyLe a b) (h2 : keyLe b a) : a = b :=
  String.data_inj (le_antisymm h h2)

theorem keyLt_of_keyLe_of_ne {a b : String} (h : keyLe a b) (hne : a ≠ b) : keyLt a b :=
  lt_of_le_of_ne h (fun hd => hne (String.data_inj hd))

/-- Keys of a field list (Object.keys). -/
def fieldKeys (fs : List (String × JVal)) : List String := fs.map Prod.fst

/-- One iteration of the canonicalization loop over the sorted keys:
look the key up, skip it when the value is `undefined`. -/
def canonStep (fs : List (String × JVal)) (k : String) : Option (String × JVal) :=
  match lookupF k fs with
  | some v => if v.isUndef then none else some (k, v)
  | none => none

/-- The non-recursive part of canonicalization of an object whose field
values have already been canonicalized: sort the keys, drop keys whose
value is `undefined`, keep the rest (stableJson.js, canonicalize, object
branch). -/
def canonObjFields (fs : List (String × JVal)) : List (String × JVal) :=
  (List.insertionSort keyLe (fieldKeys fs)).filterMap (canonStep fs)

mutual
/-- stableJson.js `canonicalize`: recursively sort object keys and strip
`undefined`-valued keys; atoms and arrays pass through (arrays
pointwise). -/
def canonicalize : JVal → JVal
  | .null => .null
  | .undef => .undef
  | .bool b => .bool b
  | .num n => .num n
  | .str s => .str s
  | .arr xs => .arr (canonList xs)
  | .obj fs => .obj (canonObjFields (canonFields fs))

/-- Canonicalize each element of an array. -/
def canonList : List JVal → List JVal
  | [] => []
  | x :: xs => canonicalize x :: canonList xs

/-- Canonicalize the value of each field of an object. -/
def canonFields : List (String × JVal) → List (String × JVal)
  | [] => []
  | (k, v) :: fs => (k, canonicalize v) :: canonFields fs
end

/-- JSON string escaping (quote and backslash; the claims never involve
control characters). -/
def jsonEscape (s : String) : String :=
  String.join (s.data.map fun c =>
    if c = '\"' then "\\\"" else if c = '\\' then "\\\\" else String.singleton c)

mutual
/-- JSON.stringify on (canonicalized) values. `undefined` renders as
null (JSON.stringify does this inside arrays; after canonicalization it
cannot occur as an object field value). -/
def jsonRender : JVal → String
  | .null => "null"
  | .undef => "null"
  | .bool true => "true"
  | .bool false => "false"
  | .num n => toString n
  | .str s => "\"" ++ jsonEscape s ++ "\""
  | .arr xs => "[" ++ jsonRenderList xs ++ "]"
  | .obj fs => "\x7b" ++ jsonRenderFields fs ++ "\x7d"

/-- Render array elements, comma separated. -/
def jsonRenderList : List JVal → String
  | [] => ""
  | [x] => jsonRender x
  | x :: xs => jsonRender x ++ "," ++ jsonRenderList xs

/-- Render object fields, comma separated. -/
def jsonRenderFields : List (String × JVal) → String
  | [] => ""
  | [(k, v)] => "\"" ++ jsonEscape k ++ "\":" ++ jsonRender v
  | (k, v) :: fs => "\"" ++ jsonEscape k ++ "\":" ++ jsonRender v ++ "," ++ jsonRenderFields fs
end

/-- stableJson.js `stableStringify`: serialize the canonicalized value. -/
def stableStringify (v : JVal) : String :=
  jsonRender (canonicalize v)

/-! ## Envelope and fingerprint (server.js) -/

/-- A structurally valid xcfg envelope (the fields admission reads after
isXcfgEnvelope has accepted the body; absent optional fields are
JVal.undef). -/
structure XCFGEnvelope where
  api_version : String
  type : String
  type_version : String
  operation : String
  idempotency_key : String
  target : JVal
  payload : JVal

/-- JavaScript nullish coalescing with null: `x ?? null`. -/
def coalesceNull (v : JVal) : JVal :=
  match v with
  | .undef => .null
  | .null => .null
  | v => v

/-- server.js `fingerprintEnvelope`: canonical serialization of the six
identity-relevant fields. -/
def fingerprintEnvelope (e : XCFGEnvelope) : String :=
  stableStringify (.obj
    [ ("api_version", .str e.api_version)
    , ("type", .str e.type)
    , ("type_version", .str e.type_version)
    , ("operation", .str e.operation)
    , ("target", coalesceNull e.target)
    , ("payload", e.payload) ])

/-! ## Equality up to key reordering and undefined-key removal (C8) -/

/-- Drop the fields of an object whose value is `undefined`. -/
def stripUndef (fs : List (String × JVal)) : List (String × JVal) :=
  fs.filter fun p => !p.2.isUndef

mutual
/-- Two JS values are equal up to reordering of keys inside any nested
object and up to removal of keys whose value is `undefined`. -/
inductive JEquiv : JVal → JVal → Prop where
  | null : JEquiv .null .null
  | undef : JEquiv .undef .undef
  | bool (b : Bool) : JEquiv (.bool b) (.bool b)
  | num (n : Int) : JEquiv (.num n) (.num n)
  | str (s : String) : JEquiv (.str s) (.str s)
  | arr {xs ys : List JVal} : JEquivList xs ys → JEquiv (.arr xs) (.arr ys)
  | obj {f1 f2 g : List (String × JVal)} :
      JEquivFields (stripUndef f1) g → List.Perm g (stripUndef f2) →
      JEquiv (.obj f1) (.obj f2)

/-- Pointwise equivalence of array elements. -/
inductive JEquivList : List JVal → List JVal → Prop where
  | nil : JEquivList [] []
  | cons {x y : JVal} {xs ys : List JVal} :
      JEquiv x y → JEquivList xs ys → JEquivList (x :: xs) (y :: ys)

/-- Pointwise equivalence of object field lists: same keys in the same
order, equivalent values. -/
inductive JEquivFields : List (String × JVal) → List (String × JVal) → Prop where
  | nil : JEquivFields [] []
  | cons {k : String} {v w : JVal} {fs gs : List (String × JVal)} :
      JEquiv v w → JEquivFields fs gs →
      JEquivFields ((k, v) :: fs) ((k, w) :: gs)
end

mutual
/-- Well-formedness of an embedded JS value: object keys are pairwise
distinct at every level (true of every actual JS object). -/
def jwf : JVal → Prop
  | .null => True
  | .undef => True
  | .bool _ => True
  | .num _ => True
  | .str _ => True
  | .arr xs => jwfList xs
  | .obj fs => (fieldKeys fs).Nodup ∧ jwfFields fs

/-- All elements well-formed. -/
def jwfList : List JVal → Prop
  | [] => True
  | x :: xs => jwf x ∧ jwfList xs

/-- All field values well-formed. -/
def jwfFields : List (String × JVal) → Prop
  | [] => True
  | (_, v) :: fs => jwf v ∧ jwfFields fs
end

theorem jwfList_mem : ∀ {xs : List JVal}, jwfList xs → ∀ {x : JVal}, x ∈ xs → jwf x
  | _ :: _, h, _, .head _ => h.1
  | _ :: _, h, _, .tail _ hx => jwfList_mem h.2 hx

theorem jwfFields_mem : ∀ {fs : List (String × JVal)}, jwfFields fs →
    ∀ {p : String × JVal}, p ∈ fs → jwf p.2
  | (_, _) :: _, h, _, .head _ => h.1
  | (_, _) :: _, h, _, .tail _ hp => jwfFields_mem h.2 hp

theorem jwfFields_of_mem : ∀ {fs : List (String × JVal)},
    (∀ p ∈ fs, jwf p.2) → jwfFields fs
  | [], _ => trivial
  | (_, _) :: _, h => ⟨h _ (.head _), jwfFields_of_mem fun p hp => h p (.tail _ hp)⟩

theorem JEquiv_isUndef {v w : JVal} (h : JEquiv v w) : v.isUndef = w.isUndef := by
  cases h <;> rfl

theorem canonicalize_isUndef (v : JVal) : (canonicalize v).isUndef = v.isUndef := by
  cases v <;> rfl

theorem canonList_eq_map (xs : List JVal) : canonList xs = xs.map canonicalize := by
  induction xs with
  | nil => rfl
  | cons x xs ih => rw [canonList, ih, List.map_cons]

theorem canonFields_eq_map (fs : List (String × JVal)) :
    canonFields fs = fs.map (fun p => (p.1, canonicalize p.2)) := by
  induction fs with
  | nil => rfl
  | cons p fs ih => obtain ⟨k, v⟩ := p; rw [canonFields, ih, List.map_cons]

theorem fieldKeys_canonFields (fs : List (String × JVal)) :
    fieldKeys (canonFields fs) = fieldKeys fs := by
  rw [canonFields_eq_map, fieldKeys, fieldKeys, List.map_map]
  rfl

theorem sizeOf_filter_le {α : Type} [SizeOf α] (p : α → Bool) (l : List α) :
    sizeOf (l.filter p) ≤ sizeOf l := by
  induction l with
  | nil => exact le_refl _
  | cons x l ih =>
    rw [List.filter_cons]
    by_cases hx : p x
    · simp only [hx, if_pos]
      simp only [List.cons.sizeOf_spec]
      omega
    · simp only [hx, Bool.false_eq_true, if_neg, not_false_iff]
      simp only [List.cons.sizeOf_spec]
      omega

theorem stripUndef_canonFields (fs : List (String × JVal)) :
    stripUndef (canonFields fs) = canonFields (stripUndef fs) := by
  rw [canonFields_eq_map, canonFields_eq_map, stripUndef, stripUndef, List.filter_map]
  congr 1
  refine List.filter_congr fun p _ => ?_
  simp [Function.comp, canonicalize_isUndef]

theorem lookupF_cons_ne {k k' : String} {v : JVal} {fs : List (String × JVal)}
    (h : k' ≠ k) : lookupF k ((k', v) :: fs) = lookupF k fs := by
  rw [lookupF, if_neg h]

theorem canonStep_cons_ne {k k' : String} {v : JVal} {fs : List (String × JVal)}
    (h : k' ≠ k) : canonStep ((k', v) :: fs) k = canonStep fs k := by
  rw [canonStep, lookupF_cons_ne h, canonStep]

theorem filterMap_canonStep_fieldKeys : ∀ {fs : List (String × JVal)},
    (fieldKeys fs).Nodup →
    (fieldKeys fs).filterMap (canonStep fs) = stripUndef fs := by
  intro fs
  induction fs with
  | nil => intro h; rfl
  | cons p fs ih =>
    intro h
    obtain ⟨k, v⟩ := p
    have h' : (k :: fieldKeys fs).Nodup := h
    have hk : k ∉ fieldKeys fs := (List.nodup_cons.mp h').1
    have hnd : (fieldKeys fs).Nodup := (List.nodup_cons.mp h').2
    have hstep : canonStep ((k, v) :: fs) k = if v.isUndef then none else some (k, v) := by
      rw [canonStep, lookupF, if_pos rfl]
    have hcong : (fieldKeys fs).filterMap (canonStep ((k, v) :: fs))
        = (fieldKeys fs).filterMap (canonStep fs) := by
      refine List.filterMap_congr fun x hx => ?_
      exact canonStep_cons_ne (fun he => hk (he ▸ hx))
    show (k :: fieldKeys fs).filterMap (canonStep ((k, v) :: fs)) = stripUndef ((k, v) :: fs)
    rw [List.filterMap_cons, hstep, hcong, ih hnd]
    by_cases hv : v.isUndef
    · simp [stripUndef, List.filter_cons, hv]
    · simp [stripUndef, List.filter_cons, hv]

theorem canonObjFields_perm_stripUndef {fs : List (String × JVal)}
    (h : (fieldKeys fs).Nodup) :
    List.Perm (canonObjFields fs) (stripUndef fs) := by
  unfold canonObjFields
  have hp := (List.perm_insertionSort keyLe (fieldKeys fs)).filterMap (canonStep fs)
  rw [filterMap_canonStep_fieldKeys h] at hp
  exact hp

/-- Strict key order on fields. -/
def pairKeyLt (p q : String × JVal) : Prop := keyLt p.1 q.1

instance : IsAntisymm (String × JVal) pairKeyLt :=
  ⟨fun _ _ h h2 => absurd (lt_trans h h2) (lt_irrefl _)⟩

theorem mem_canonStep {fs : List (String × JVal)} {k : String} {p : String × JVal}
    (h : p ∈ canonStep fs k) : p.1 = k := by
  rw [canonStep] at h
  split at h
  · split at h
    · cases h
    · rw [Option.mem_def, Option.some.injEq] at h
      rw [← h]
  · cases h

theorem canonObjFields_sorted {fs : List (String × JVal)}
    (h : (fieldKeys fs).Nodup) :
    List.Pairwise pairKeyLt (canonObjFields fs) := by
  have hsorted : List.Sorted keyLe (List.insertionSort keyLe (fieldKeys fs)) :=
    List.sorted_insertionSort keyLe (fieldKeys fs)
  have hnd : (List.insertionSort keyLe (fieldKeys fs)).Nodup :=
    (List.perm_insertionSort keyLe (fieldKeys fs)).symm.nodup h
  have hlt : List.Pairwise keyLt (List.insertionSort keyLe (fieldKeys fs)) :=
    (hsorted.and hnd).imp fun hab => keyLt_of_keyLe_of_ne hab.1 hab.2
  exact List.Pairwise.filterMap (canonStep fs)
    (fun a a' hlt' b hb b' hb' => by
      rw [pairKeyLt, mem_canonStep hb, mem_canonStep hb']
      exact hlt') hlt

theorem jequivFields_strip : ∀ {fs gs : List (String × JVal)},
    JEquivFields fs gs → JEquivFields (stripUndef fs) (stripUndef gs)
  | _, _, .nil => .nil
  | (k, v) :: _, (_, w) :: _, .cons hvw hrest => by
    have hrest' := jequivFields_strip hrest
    rw [stripUndef, List.filter_cons, stripUndef, List.filter_cons]
    rw [JEquiv_isUndef hvw]
    by_cases hw : w.isUndef
    · simp only [hw, Bool.not_true, if_neg (by simp : ¬(false = true))]
      exact hrest'
    · simp only [eq_false_of_ne_true (by simpa using hw), Bool.not_false, if_pos rfl]
      exact .cons hvw hrest'

mutual
theorem jequiv_canon : ∀ {a b : JVal}, JEquiv a b → jwf a → jwf b →
    canonicalize a = canonicalize b
  | _, _, .null, _, _ => rfl
  | _, _, .undef, _, _ => rfl
  | _, _, .bool _, _, _ => rfl
  | _, _, .num _, _, _ => rfl
  | _, _, .str _, _, _ => rfl
  | .arr xs, .arr _, .arr hl, ha, hb => congrArg JVal.arr (jequivList_canon hl ha hb)
  | .obj f1, .obj f2, .obj (g := g) hfields hperm, ha, hb => by
    obtain ⟨hn1, hw1⟩ := ha
    obtain ⟨hn2, hw2⟩ := hb
    have wsf1 : jwfFields (stripUndef f1) := jwfFields_of_mem fun p hp =>
      jwfFields_mem hw1 (List.mem_of_mem_filter hp)
    have wg : jwfFields g := jwfFields_of_mem fun p hp =>
      jwfFields_mem hw2 (List.mem_of_mem_filter (hperm.subset hp))
    have e2 : canonFields (stripUndef f1) = canonFields g :=
      jequivFields_canon hfields wsf1 wg
    have k1 : (fieldKeys (canonFields f1)).Nodup := by
      rw [fieldKeys_canonFields]; exact hn1
    have k2 : (fieldKeys (canonFields f2)).Nodup := by
      rw [fieldKeys_canonFields]; exact hn2
    have p2 : List.Perm (canonFields g) (canonFields (stripUndef f2)) := by
      rw [canonFields_eq_map, canonFields_eq_map]
      exact hperm.map _
    have perm : List.Perm (canonObjFields (canonFields f1))
        (canonObjFields (canonFields f2)) := by
      refine (canonObjFields_perm_stripUndef k1).trans ?_
      rw [stripUndef_canonFields, e2]
      refine p2.trans ?_
      rw [← stripUndef_canonFields]
      exact (canonObjFields_perm_stripUndef k2).symm
    show JVal.obj (canonObjFields (canonFields f1))
        = JVal.obj (canonObjFields (canonFields f2))
    exact congrArg JVal.obj
      (List.eq_of_perm_of_sorted perm (canonObjFields_sorted k1) (canonObjFields_sorted k2))
termination_by a _ _ _ _ => sizeOf a
decreasing_by
  · simp only [JVal.arr.sizeOf_spec]; omega
  · have hle : sizeOf (stripUndef f1) ≤ sizeOf f1 := sizeOf_filter_le _ f1
    simp only [JVal.obj.sizeOf_spec]
    omega

theorem jequivList_canon : ∀ {xs ys : List JVal}, JEquivList xs ys →
    jwfList xs → jwfList ys → canonList xs = canonList ys
  | _, _, .nil, _, _ => rfl
  | _ :: _, _ :: _, .cons h hl, ha, hb => by
    rw [canonList, canonList, jequiv_canon h ha.1 hb.1, jequivList_canon hl ha.2 hb.2]
termination_by xs _ _ _ _ => sizeOf xs
decreasing_by
  · simp only [List.cons.sizeOf_spec]; omega
  · simp only [List.cons.sizeOf_spec]; omega

theorem jequivFields_canon : ∀ {fs gs : List (String × JVal)}, JEquivFields fs gs →
    jwfFields fs → jwfFields gs → canonFields fs = canonFields gs
  | _, _, .nil, _, _ => rfl
  | (_, _) :: _, (_, _) :: _, .cons h hf, ha, hb => by
    rw [canonFields, canonFields, jequiv_canon h ha.1 hb.1, jequivFields_canon hf ha.2 hb.2]
termination_by fs _ _ _ _ => sizeOf fs
decreasing_by
  · simp only [List.cons.sizeOf_spec, Prod.mk.sizeOf_spec]; omega
  · simp only [List.cons.sizeOf_spec]; omega
end

theorem coalesceNull_jequiv {a b : JVal} (h : JEquiv a b) :
    JEquiv (coalesceNull a) (coalesceNull b) := by
  cases h with
  | null => exact .null
  | undef => exact .null
  | bool b => exact .bool b
  | num n => exact .num n
  | str s => exact .str s
  | arr hl => exact .arr hl
  | obj hf hp => exact .obj hf hp

theorem jwf_coalesceNull {v : JVal} (h : jwf v) : jwf (coalesceNull v) := by
  cases v with
  | null => trivial
  | undef => trivial
  | bool b => exact h
  | num n => exact h
  | str s => exact h
  | arr xs => exact h
  | obj fs => exact h

/-- C8: for every pair of envelopes that are equal up to reordering of keys
inside any (possibly nested) object of the fingerprinted fields
(api_version, type, type_version, operation, target, payload) and up to
removal of keys whose value is undefined, fingerprintEnvelope returns the
same string for both. -/
theorem c8_fingerprint_invariant (e1 e2 : XCFGEnvelope)
    (hav : e1.api_version = e2.api_version) (hty : e1.type = e2.type)
    (htv : e1.type_version = e2.type_version) (hop : e1.operation = e2.operation)
    (htg : JEquiv e1.target e2.target) (hpl : JEquiv e1.payload e2.payload)
    (w1t : jwf e1.target) (w2t : jwf e2.target)
    (w1p : jwf e1.payload) (w2p : jwf e2.payload) :
    fingerprintEnvelope e1 = fingerprintEnvelope e2 := by
  obtain ⟨av1, ty1, tv1, op1, ik1, tg1, pl1⟩ := e1
  obtain ⟨av2, ty2, tv2, op2, ik2, tg2, pl2⟩ := e2
  dsimp at hav hty htv hop htg hpl w1t w2t w1p w2p
  subst hav hty htv hop
  unfold fingerprintEnvelope stableStringify
  congr 1
  have hfull : JEquivFields
      [ ("api_version", JVal.str av1), ("type", JVal.str ty1)
      , ("type_version", JVal.str tv1), ("operation", JVal.str op1)
      , ("target", coalesceNull tg1), ("payload", pl1) ]
      [ ("api_version", JVal.str av1), ("type", JVal.str ty1)
      , ("type_version", JVal.str tv1), ("operation", JVal.str op1)
      , ("target", coalesceNull tg2), ("payload", pl2) ] :=
    .cons (.str av1) (.cons (.str ty1) (.cons (.str tv1) (.cons (.str op1)
      (.cons (coalesceNull_jequiv htg) (.cons hpl .nil)))))
  have hkeys : ∀ (t p : JVal),
      (fieldKeys [("api_version", JVal.str av1), ("type", JVal.str ty1),
        ("type_version", JVal.str tv1), ("operation", JVal.str op1),
        ("target", t), ("payload", p)]).Nodup := fun t p => by
    show (["api_version", "type", "type_version", "operation", "target",
      "payload"] : List String).Nodup
    decide
  refine jequiv_canon (.obj (jequivFields_strip hfull) (List.Perm.refl _)) ?_ ?_
  · exact ⟨hkeys _ _, trivial, trivial, trivial, trivial, jwf_coalesceNull w1t, w1p, trivial⟩
  · exact ⟨hkeys _ _, trivial, trivial, trivial, trivial, jwf_coalesceNull w2t, w2p, trivial⟩

/-- Witness for C8 at a concrete pair of envelopes: the second envelope has
the payload keys in a different order and an extra undefined-valued key,
and both fingerprints agree. -/
theorem c8_fingerprint_invariant_witness :
    JEquiv (JVal.obj [("a", .num 1), ("b", .arr [.str "x"]), ("junk", .undef)])
      (JVal.obj [("b", .arr [.str "x"]), ("a", .num 1)]) ∧
    fingerprintEnvelope
        ⟨"1", "t", "1", "apply", "k1", .undef,
          .obj [("a", .num 1), ("b", .arr [.str "x"]), ("junk", .undef)]⟩
      = fingerprintEnvelope
        ⟨"1", "t", "1", "apply", "k2", .undef,
          .obj [("b", .arr [.str "x"]), ("a", .num 1)]⟩ := by
  have hpl : JEquiv (JVal.obj [("a", .num 1), ("b", .arr [.str "x"]), ("junk", .undef)])
      (JVal.obj [("b", .arr [.str "x"]), ("a", .num 1)]) :=
    .obj (g := [("a", .num 1), ("b", .arr [.str "x"])])
      (.cons (.num 1) (.cons (.arr (.cons (.str "x") .nil)) .nil))
      (List.Perm.swap _ _ _)
  refine ⟨hpl, ?_⟩
  exact c8_fingerprint_invariant _ _ rfl rfl rfl rfl .undef hpl trivial trivial
    (by exact ⟨by decide, trivial, ⟨trivial, trivial⟩, trivial, trivial⟩)
    (by exact ⟨by decide, ⟨trivial, trivial⟩, trivial, trivial⟩)

/-! ## Engine data model (core/plan.js, core/engine.js) -/

/-- Task statuses (core/plan.js TASK_STATUSES). -/
inductive TaskStatus where
  | queued
  | running
  | succeeded
  | failed
  | canceled
deriving DecidableEq

/-- Request statuses (data model of the request record). -/
inductive RequestStatus where
  | planned
  | queued
  | running
  | executed
  | failed
  | denied
deriving DecidableEq

/-- An execution-plan task. -/
structure ExecutionTask where
  id : String
  backend : String
  action : String
  input : JVal := .null
  depends_on : List String := []

/-- An execution plan (plan.tasks; the engine reads the field through
plan.tasks ?? [], modelled by the list itself). -/
structure ExecutionPlan where
  tasks : List ExecutionTask

/-- A task result record. Absent JS fields are `none`; the engine's
truthiness tests on started_at are modelled by Option.isSome (the code
only ever stores non-empty ISO timestamps). `error` is modelled by its
message string. -/
structure TaskResult where
  task_id : String
  backend : String
  status : TaskStatus
  external_id : Option String := none
  output : Option JVal := none
  error : Option String := none
  started_at : Option String := none
  finished_at : Option String := none

/-- What an adapter's execute returns (fields it chose to include; a key
that is absent is `none`). -/
structure AdapterRet where
  status : TaskStatus
  external_id : Option String := none
  output : Option JVal := none
  error : Option String := none
  started_at : Option String := none
  finished_at : Option String := none

/-- A backend adapter; execute is modelled as a pure function of the task
(the adapter context does not influence the engine's control flow), and a
thrown error is the `Except.error` case carrying the message. -/
structure Adapter where
  name : String
  execute : ExecutionTask → Except String AdapterRet

/-- An audit event as far as the claims are concerned (request_id and
timestamp omitted: they are constant in one engine step). -/
structure AuditEvent where
  level : String
  stage : String
  message : String

/-- The engine's task-id → result Map, modelled as a function (the engine
never iterates it, only gets and sets). -/
abbrev ResMap : Type := String → Option TaskResult

/-- Map.set. -/
def rmset (m : ResMap) (k : String) (v : TaskResult) : ResMap :=
  fun k' => if k' = k then some v else m k'

/-- An element of the existingResults array passed to executePlan: either
a well-typed task result, or one of the malformed shapes the seeding loop
rejects (a non-object entry, or an object whose task_id is not a string). -/
inductive SeedEntry where
  | notObject
  | noStringTaskId
  | result (r : TaskResult)

/-- One iteration of the first seeding loop: skip entries that are not
objects or whose task_id is not a string or names no plan task; keep the
rest under their task_id (later entries overwrite earlier ones, Map.set
semantics). -/
def seedInsertValid (taskIds : List String) (m : ResMap) (e : SeedEntry) : ResMap :=
  match e with
  | .notObject => m
  | .noStringTaskId => m
  | .result r => if taskIds.contains r.task_id then rmset m r.task_id r else m

/-- One iteration of the second seeding loop: a task not yet in the map
gets the queued default. -/
def seedDefaultStep (m : ResMap) (t : ExecutionTask) : ResMap :=
  match m t.id with
  | some _ => m
  | none => rmset m t.id { task_id := t.id, backend := t.backend, status := .queued }

/-- engine.js seedTaskResults: keep existing entries that are objects with
a string task_id naming a plan task (later entries overwrite earlier ones,
Map.set semantics); then give every other task a queued default. -/
def seedTaskResults (tasks : List ExecutionTask) (existingResults : List SeedEntry) : ResMap :=
  tasks.foldl seedDefaultStep
    (existingResults.foldl (seedInsertValid (tasks.map (·.id))) (fun _ => none))

/-- One iteration of the cancellation sweep over one task: a queued,
never-started task whose depends_on contains a failed or canceled
dependency becomes canceled with a message naming the dependency, and a
warn-level audit event is emitted. -/
def cancelStep (timestamp : String) (acc : ResMap × List AuditEvent)
    (task : ExecutionTask) : ResMap × List AuditEvent :=
  match acc.1 task.id with
  | none => acc
  | some current =>
    if current.status ≠ .queued then acc
    else if current.started_at.isSome then acc
    else
      match task.depends_on.find? (fun dep =>
        match acc.1 dep with
        | some depResult => depResult.status = .failed || depResult.status = .canceled
        | none => false) with
      | none => acc
      | some failedDep =>
        (rmset acc.1 task.id { current with
            status := .canceled
            error := some ("Task " ++ task.id ++ " canceled due to failed dependency "
              ++ failedDep)
            started_at := some (current.started_at.getD timestamp)
            finished_at := some timestamp },
         acc.2 ++ [{ level := "warn", stage := "execute"
                     message := "Task " ++ task.id
                       ++ " canceled due to failed dependency " ++ failedDep }])

/-- engine.js cancelBlockedTasks: one sweep over the tasks in order. -/
def cancelBlockedTasks (tasks : List ExecutionTask) (resultByTaskId : ResMap)
    (timestamp : String) : ResMap × List AuditEvent :=
  tasks.foldl (cancelStep timestamp) (resultByTaskId, [])

/-- engine.js dependenciesSucceeded. -/
def dependenciesSucceeded (task : ExecutionTask) (resultByTaskId : ResMap) : Bool :=
  task.depends_on.all fun dep =>
    match resultByTaskId dep with
    | some depResult => depResult.status = .succeeded
    | none => false

/-- engine.js listRunnableTasks: a task with no current result is runnable
unconditionally; otherwise it must be queued, never started, and have all
dependencies succeeded. -/
def listRunnableTasks (tasks : List ExecutionTask) (resultByTaskId : ResMap) :
    List ExecutionTask :=
  tasks.filter fun task =>
    match resultByTaskId task.id with
    | none => true
    | some current =>
      current.status = .queued && current.started_at.isNone
        && dependenciesSucceeded task resultByTaskId

/-- engine.js orderedResults. -/
def orderedResults (tasks : List ExecutionTask) (resultByTaskId : ResMap) :
    List TaskResult :=
  tasks.filterMap fun task => resultByTaskId task.id

/-- engine.js rollupStatus (XCFGEngine.rollupStatus). -/
def rollupStatus (plan : ExecutionPlan) (results : List TaskResult) : RequestStatus :=
  let hasFailed := results.any fun r => r.status = .failed || r.status = .canceled
  let allSucceeded := !plan.tasks.isEmpty && plan.tasks.all fun t =>
    match results.find? (fun r => r.task_id = t.id) with
    | some r => r.status = .succeeded
    | none => false
  let anyRunning := plan.tasks.any fun task =>
    match results.find? (fun r => r.task_id = task.id) with
    | some r => r.status = .running || r.status = .queued
    | none => true
  if hasFailed then .failed
  else if allSucceeded then .executed
  else if anyRunning then .running
  else .executed

/-! ## Topological sort (engine.js topoSortTasks) -/

/-- A String-keyed map as a function, with JS Map.set semantics. -/
def fset {α : Type} (m : String → α) (k : String) (v : α) : String → α :=
  fun k' => if k' = k then v else m k'

/-- byId: Map from id to task, later tasks overwrite earlier ones. -/
def taskById (tasks : List ExecutionTask) : String → Option ExecutionTask :=
  tasks.foldl (fun m t => fset m t.id (some t)) (fun _ => none)

/-- First occurrences of each element, in order (JS Map key iteration
order for keys inserted by repeated set). -/
def firstOccurrences (l : List String) : List String :=
  l.foldl (fun acc x => if acc.contains x then acc else acc ++ [x]) []

/-- Build indegree and adjacency from depends_on edges; a dependency on an
id with no task throws. -/
def buildEdges (byId : String → Option ExecutionTask) (tasks : List ExecutionTask) :
    Except String ((String → Int) × (String → List String)) :=
  tasks.foldlM (fun acc t =>
    t.depends_on.foldlM (fun (acc2 : (String → Int) × (String → List String)) dep =>
      match byId dep with
      | some _ =>
        .ok (fset acc2.1 t.id (acc2.1 t.id + 1), fset acc2.2 dep (acc2.2 dep ++ [t.id]))
      | none => .error ("Task " ++ t.id ++ " depends on missing task " ++ dep)) acc)
    ((fun _ => 0), (fun _ => []))

/-- Kahn's queue loop. Each queue pop appends the task of the popped id
and decrements the indegree of its successors, enqueueing those that reach
zero. Fuel strictly exceeds the possible number of pops, so the zero-fuel
case is unreachable. -/
def kahnLoop (byId : String → Option ExecutionTask) (out : String → List String) :
    Nat → (String → Int) → List String → List ExecutionTask → List ExecutionTask
  | 0, _, _, ordered => ordered
  | fuel + 1, indegree, queue, ordered =>
    match queue with
    | [] => ordered
    | id :: rest =>
      let ordered' := match byId id with
        | some t => ordered ++ [t]
        | none => ordered
      let step := (out id).foldl
        (fun (acc : (String → Int) × List String) next =>
          let d := acc.1 next - 1
          (fset acc.1 next d, if d = 0 then acc.2 ++ [next] else acc.2))
        (indegree, rest)
      kahnLoop byId out fuel step.1 step.2 ordered'

/-- The result list of Kahn's algorithm for a given edge structure: start
from the zero-indegree ids in Map-iteration order; the fuel strictly
exceeds the possible number of queue pops. -/
def kahnRun (tasks : List ExecutionTask) (indegree : String → Int)
    (out : String → List String) : List ExecutionTask :=
  kahnLoop (taskById tasks) out
    (tasks.length + (tasks.map (·.depends_on.length)).sum + 1) indegree
    ((firstOccurrences (tasks.map (·.id))).filter fun id => indegree id = 0) []

/-- engine.js topoSortTasks: plans with at most one task are returned
unvalidated; otherwise Kahn's algorithm; a leftover task means a cycle. -/
def topoSortTasks (tasks : List ExecutionTask) : Except String (List ExecutionTask) :=
  if tasks.length ≤ 1 then .ok tasks
  else
    match buildEdges (taskById tasks) tasks with
    | .error e => .error e
    | .ok (indegree, out) =>
      if (kahnRun tasks indegree out).length ≠ tasks.length then
        .error "Execution plan contains a dependency cycle"
      else .ok (kahnRun tasks indegree out)

/-! ## Plan execution (engine.js executePlan) -/

/-- The default a missing map entry gets before an upsert. The JS code
builds a bare object with only task_id here; the branch is unreachable
because the map is seeded for every plan task, and the modelled default
carries the task's backend and queued status so the record is total. -/
def defaultEntry (t : ExecutionTask) : TaskResult :=
  { task_id := t.id, backend := t.backend, status := .queued }

/-- Result normalization on a successful adapter return (engine.js
executePlan, try-branch): spread the adapter return over the existing
entry, overwrite task_id and backend, default started_at to now, and
default finished_at to now only when the status is succeeded or failed. -/
def normalizeAdapterResult (t : ExecutionTask) (now : String) (existing : TaskResult)
    (ret : AdapterRet) : TaskResult :=
  let finished_at :=
    if ret.status = .succeeded || ret.status = .failed then
      some (ret.finished_at.getD now)
    else ret.finished_at
  { task_id := t.id
    backend := t.backend
    status := ret.status
    external_id := ret.external_id.orElse fun _ => existing.external_id
    output := ret.output.orElse fun _ => existing.output
    error := ret.error.orElse fun _ => existing.error
    started_at := some (ret.started_at.getD now)
    finished_at := finished_at }

/-- The failed-result upsert shared by the missing-adapter branch and the
catch branch: status failed with a message, finished_at now; fields not in
the patch (external_id, output, started_at) are kept from the existing
entry. -/
def failedResult (t : ExecutionTask) (now : String) (existing : TaskResult)
    (message : String) : TaskResult :=
  { task_id := t.id
    backend := t.backend
    status := .failed
    external_id := existing.external_id
    output := existing.output
    error := some message
    started_at := existing.started_at
    finished_at := some now }

/-- One pass of the inner for-loop over a runnable list: dispatch each
task in order; record (task, map at the moment of dispatch) whenever an
adapter's execute is invoked; after a dispatched task, stop when the
roll-up becomes failed (the missing-adapter branch continues without that
check, mirroring the `continue`). -/
def execPass (reg : String → Option Adapter) (plan : ExecutionPlan)
    (orderedTasks : List ExecutionTask) (now : String) :
    List ExecutionTask → ResMap →
    ResMap × List AuditEvent × List (ExecutionTask × ResMap)
  | [], m => (m, [], [])
  | task :: rest, m =>
    match reg task.backend with
    | none =>
      let message := "No adapter registered for backend " ++ task.backend
      let existing := (m task.id).getD (defaultEntry task)
      let m' := rmset m task.id (failedResult task now existing message)
      let res := execPass reg plan orderedTasks now rest m'
      (res.1, { level := "error", stage := "execute", message := message } :: res.2.1, res.2.2)
    | some adapter =>
      let startEv : AuditEvent :=
        { level := "info", stage := "execute"
          message := "Executing task " ++ task.id ++ " via " ++ adapter.name }
      match adapter.execute task with
      | .ok ret =>
        let existing := (m task.id).getD (defaultEntry task)
        let m' := rmset m task.id (normalizeAdapterResult task now existing ret)
        let doneEv : AuditEvent :=
          { level := "info", stage := "execute"
            message :=
              if ret.status = .running || ret.status = .queued then
                "Task " ++ task.id ++ " accepted"
              else "Task " ++ task.id ++ " finished" }
        if rollupStatus plan (orderedResults orderedTasks m') = .failed then
          (m', [startEv, doneEv], [(task, m)])
        else
          let res := execPass reg plan orderedTasks now rest m'
          (res.1, startEv :: doneEv :: res.2.1, (task, m) :: res.2.2)
      | .error errorMessage =>
        let existing := (m task.id).getD (defaultEntry task)
        let m' := rmset m task.id (failedResult task now existing errorMessage)
        let failEv : AuditEvent :=
          { level := "error", stage := "execute"
            message := "Task " ++ task.id ++ " failed" }
        if rollupStatus plan (orderedResults orderedTasks m') = .failed then
          (m', [startEv, failEv], [(task, m)])
        else
          let res := execPass reg plan orderedTasks now rest m'
          (res.1, startEv :: failEv :: res.2.1, (task, m) :: res.2.2)

/-- The scheduling while-loop: recompute the runnable set, dispatch a
pass, stop when the set is empty or the roll-up is failed. Fuel strictly
exceeds the number of possible iterations (each pass permanently starts
at least one task), so the zero-fuel case is unreachable. -/
def execLoop (reg : String → Option Adapter) (plan : ExecutionPlan)
    (orderedTasks : List ExecutionTask) (now : String) :
    Nat → ResMap → ResMap × List AuditEvent × List (ExecutionTask × ResMap)
  | 0, m => (m, [], [])
  | fuel + 1, m =>
    if (listRunnableTasks orderedTasks m).isEmpty then (m, [], [])
    else if rollupStatus plan (orderedResults orderedTasks
        (execPass reg plan orderedTasks now (listRunnableTasks orderedTasks m) m).1)
        = .failed then
      execPass reg plan orderedTasks now (listRunnableTasks orderedTasks m) m
    else
      ((execLoop reg plan orderedTasks now fuel
          (execPass reg plan orderedTasks now (listRunnableTasks orderedTasks m) m).1).1,
       (execPass reg plan orderedTasks now (listRunnableTasks orderedTasks m) m).2.1
         ++ (execLoop reg plan orderedTasks now fuel
              (execPass reg plan orderedTasks now
                (listRunnableTasks orderedTasks m) m).1).2.1,
       (execPass reg plan orderedTasks now (listRunnableTasks orderedTasks m) m).2.2
         ++ (execLoop reg plan orderedTasks now fuel
              (execPass reg plan orderedTasks now
                (listRunnableTasks orderedTasks m) m).1).2.2)

/-- What executePlan returns, together with the audit events it wrote and
a trace of the adapter invocations (task and map state at dispatch). -/
structure ExecOutcome where
  results : List TaskResult
  status : RequestStatus
  events : List AuditEvent
  invocations : List (ExecutionTask × ResMap)

/-- engine.js XCFGEngine.executePlan: topological sort, seeding, one
cancellation sweep, then the scheduling loop; the thrown topoSortTasks
errors surface as Except.error. -/
def executePlan (reg : String → Option Adapter) (plan : ExecutionPlan)
    (existingResults : List SeedEntry) (now : String) : Except String ExecOutcome :=
  match topoSortTasks plan.tasks with
  | .error e => .error e
  | .ok orderedTasks =>
    if (listRunnableTasks orderedTasks
        (cancelBlockedTasks orderedTasks
          (seedTaskResults orderedTasks existingResults) now).1).isEmpty then
      .ok { results := orderedResults orderedTasks
              (cancelBlockedTasks orderedTasks
                (seedTaskResults orderedTasks existingResults) now).1
            status := rollupStatus plan (orderedResults orderedTasks
              (cancelBlockedTasks orderedTasks
                (seedTaskResults orderedTasks existingResults) now).1)
            events := (cancelBlockedTasks orderedTasks
              (seedTaskResults orderedTasks existingResults) now).2
            invocations := [] }
    else
      .ok { results := orderedResults orderedTasks
              (execLoop reg plan orderedTasks now (orderedTasks.length + 1)
                (cancelBlockedTasks orderedTasks
                  (seedTaskResults orderedTasks existingResults) now).1).1
            status := rollupStatus plan (orderedResults orderedTasks
              (execLoop reg plan orderedTasks now (orderedTasks.length + 1)
                (cancelBlockedTasks orderedTasks
                  (seedTaskResults orderedTasks existingResults) now).1).1)
            events := (cancelBlockedTasks orderedTasks
                (seedTaskResults orderedTasks existingResults) now).2
              ++ (execLoop reg plan orderedTasks now (orderedTasks.length + 1)
                  (cancelBlockedTasks orderedTasks
                    (seedTaskResults orderedTasks existingResults) now).1).2.1
            invocations := (execLoop reg plan orderedTasks now (orderedTasks.length + 1)
                (cancelBlockedTasks orderedTasks
                  (seedTaskResults orderedTasks existingResults) now).1).2.2 }

/-! ## Request store (core/requestStore.js, InMemoryRequestStore) -/

/-- A stored request record. results and plan may be absent. -/
structure RequestRecord where
  request_id : String
  envelope : XCFGEnvelope
  plan : Option ExecutionPlan := none
  results : Option (List TaskResult) := none
  status : RequestStatus
  created_at : String
  updated_at : String

/-- Creation-time comparison used by listByStatus
(a.created_at.localeCompare(b.created_at)). -/
def createdLe (a b : RequestRecord) : Prop := keyLe a.created_at b.created_at

instance : DecidableRel createdLe := fun a b =>
  inferInstanceAs (Decidable (keyLe a.created_at b.created_at))

instance : IsTotal RequestRecord createdLe :=
  ⟨fun a b => IsTotal.total (r := keyLe) a.created_at b.created_at⟩

instance : IsTrans RequestRecord createdLe :=
  ⟨fun _ _ _ h h2 => Trans.trans (r := keyLe) (s := keyLe) h h2⟩

/-- The collection loop of InMemoryRequestStore.listByStatus: walk the
records in Map-insertion order, keep the matching ones, and break as soon
as the accumulator has reached the limit (the length test runs after the
push, so even limit = 0 keeps one record). -/
def collectByStatus (allowed : List RequestStatus) (limit : Nat) :
    List RequestRecord → List RequestRecord → List RequestRecord
  | [], acc => acc
  | r :: rest, acc =>
    if allowed.contains r.status then
      let acc' := acc ++ [r]
      if limit ≤ acc'.length then acc'
      else collectByStatus allowed limit rest acc'
    else collectByStatus allowed limit rest acc

/-- InMemoryRequestStore.listByStatus: collect up to limit matching
records in insertion order, then sort the collected records by ascending
created_at (stable sort, modelled by insertion sort). -/
def listByStatus (records : List RequestRecord) (statuses : List RequestStatus)
    (limit : Nat) : List RequestRecord :=
  List.insertionSort createdLe (collectByStatus statuses limit records [])

/-! ## Callback ingestion (server.js, POST /v1/callbacks/backend) -/

/-- core/plan.js isTaskStatus. -/
def isTaskStatus (s : String) : Bool :=
  s = "queued" || s = "running" || s = "succeeded" || s = "failed" || s = "canceled"

/-- Parse one of the five status strings. -/
def parseTaskStatus (s : String) : Option TaskStatus :=
  if s = "queued" then some .queued
  else if s = "running" then some .running
  else if s = "succeeded" then some .succeeded
  else if s = "failed" then some .failed
  else if s = "canceled" then some .canceled
  else none

/-- The callback body fields the fold reads. A status that is absent or
not one of the five recognized strings is `none`. -/
structure CallbackBody where
  status : Option String := none
  output : Option JVal := none
  error : Option String := none

/-- server.js: `isTaskStatus(body.status) ? body.status : 'running'`. -/
def effectiveCallbackStatus (body : CallbackBody) : TaskStatus :=
  match body.status with
  | some s => (parseTaskStatus s).getD .running
  | none => .running

/-- The callback fold on the record's results array (server.js lines
312-340): update the first result whose task_id matches, overriding its
status unconditionally, merging output and error, and setting finished_at
to now only when the new status is succeeded or failed; if no result
matches, push a fresh entry. -/
def callbackMergeResults (results : List TaskResult) (ref_task_id backend external_id : String)
    (body : CallbackBody) (now : String) : List TaskResult :=
  let st := effectiveCallbackStatus body
  match results with
  | [] =>
    [{ task_id := ref_task_id
       backend := backend
       status := st
       external_id := some external_id
       output := body.output
       error := body.error
       started_at := some now
       finished_at := if st = .succeeded || st = .failed then some now else none }]
  | r :: rest =>
    if r.task_id = ref_task_id then
      { r with
        status := st
        output := body.output.orElse fun _ => r.output
        error := body.error.orElse fun _ => r.error
        finished_at :=
          if st = .succeeded || st = .failed then some now else r.finished_at } :: rest
    else r :: callbackMergeResults rest ref_task_id backend external_id body now

/-- The record-level callback fold: new results plus the recomputed
request status (roll-up when the record has a plan, otherwise the old
status). -/
def callbackFold (record : RequestRecord) (ref_task_id backend external_id : String)
    (body : CallbackBody) (now : String) : List TaskResult × RequestStatus :=
  let results := callbackMergeResults (record.results.getD []) ref_task_id backend
    external_id body now
  let requestStatus :=
    match record.plan with
    | some plan => rollupStatus plan results
    | none => record.status
  (results, requestStatus)

/-! ## Admission (server.js, POST /v1/requests) -/

/-- Store state: the records Map (keyed by request_id) and the
idempotency-key index Map, both in insertion order. -/
structure StoreState where
  records : List (String × RequestRecord)
  byIdemKey : List (String × String)

/-- JS Map.set on an association list: replace in place, else append. -/
def msetA {α : Type} (l : List (String × α)) (k : String) (v : α) : List (String × α) :=
  if l.any (·.1 = k) then l.map fun p => if p.1 = k then (k, v) else p
  else l ++ [(k, v)]

/-- JS Map.get. -/
def mgetA {α : Type} (l : List (String × α)) (k : String) : Option α :=
  (l.find? (·.1 = k)).map (·.2)

/-- InMemoryRequestStore.findByIdempotencyKey: via the key index, then the
records map (undefined when either lookup misses). -/
def findByIdempotencyKey (store : StoreState) (key : String) : Option RequestRecord :=
  (mgetA store.byIdemKey key).bind fun rid => mgetA store.records rid

/-- InMemoryRequestStore.create (external-ref reindexing omitted: the
admission claims do not read it). -/
def createRecord (store : StoreState) (record : RequestRecord) : StoreState :=
  { records := msetA store.records record.request_id record
    byIdemKey := msetA store.byIdemKey record.envelope.idempotency_key record.request_id }

/-- What the POST /v1/requests handler can answer. -/
inductive PostResponse where
  | conflict409 (request_id : String)
  | deniedExisting403 (request_id : String)
  | replay202 (request_id : String) (status : RequestStatus)
  | deniedNew403 (request_id : String)
  | accepted202 (request_id : String) (status : RequestStatus)
  | serverError (message : String)
deriving DecidableEq

/-- Policy evaluation outcome (decision and violation messages). -/
structure PolicyOutcome where
  deny : Bool
  violationMessages : List String

/-- server.js denyRecordResults. -/
def denyRecordResults (plan : ExecutionPlan) (violations : List String)
    (now : String) : List TaskResult :=
  let message := violations.headD "Request denied by policy"
  plan.tasks.map fun t =>
    { task_id := t.id
      backend := t.backend
      status := .canceled
      error := some message
      started_at := some now
      finished_at := some now }

/-- The POST /v1/requests handler after envelope validation (server.js
lines 195-291). `translate` models the engine.handle pipeline with
execute:false (translator resolution, optional validate, translate; any
failure is the thrown 500). Returns the response, the new store state,
and whether the translator pipeline was invoked. -/
def handlePostRequests (translate : XCFGEnvelope → Except String ExecutionPlan)
    (policyEval : XCFGEnvelope → ExecutionPlan → PolicyOutcome)
    (freshId now : String) (store : StoreState) (body : XCFGEnvelope) :
    PostResponse × StoreState × Bool :=
  match findByIdempotencyKey store body.idempotency_key with
  | some existing =>
    if fingerprintEnvelope existing.envelope ≠ fingerprintEnvelope body then
      (.conflict409 existing.request_id, store, false)
    else if existing.status = .denied then
      (.deniedExisting403 existing.request_id, store, false)
    else
      (.replay202 existing.request_id existing.status, store, false)
  | none =>
    match translate body with
    | .error msg => (.serverError msg, store, true)
    | .ok plan =>
      let policy := policyEval body plan
      if body.operation = "apply" && policy.deny then
        let record : RequestRecord :=
          { request_id := freshId
            envelope := body
            plan := some plan
            results := some (denyRecordResults plan policy.violationMessages now)
            status := .denied
            created_at := now
            updated_at := now }
        (.deniedNew403 freshId, createRecord store record, true)
      else
        let status : RequestStatus :=
          if body.operation = "apply" then .queued else .planned
        let record : RequestRecord :=
          { request_id := freshId
            envelope := body
            plan := some plan
            results :=
              if body.operation = "apply" then
                some (plan.tasks.map fun t =>
                  { task_id := t.id, backend := t.backend, status := TaskStatus.queued })
              else none
            status := status
            created_at := now
            updated_at := now }
        (.accepted202 freshId status, createRecord store record, true)

/-! ## Concrete scenario used by several evaluations -/

/-- Task A with no dependencies. -/
def taskA : ExecutionTask := { id := "A", backend := "mock", action := "a" }

/-- Task B depending on A. -/
def taskB : ExecutionTask := { id := "B", backend := "mock", action := "b", depends_on := ["A"] }

/-- Task C depending on B. -/
def taskC : ExecutionTask := { id := "C", backend := "mock", action := "c", depends_on := ["B"] }

/-- An adapter that fails action a and succeeds everything else. -/
def failingAAdapter : Adapter :=
  { name := "mock"
    execute := fun t =>
      if t.action = "a" then .ok { status := .failed, error := some "boom" }
      else .ok { status := .succeeded } }

/-- Registry with the single failing-A adapter under the name mock. -/
def regFailA : String → Option Adapter :=
  fun b => if b = "mock" then some failingAAdapter else none

/-- A small valid envelope. -/
def envK1 : XCFGEnvelope :=
  { api_version := "1", type := "t", type_version := "1", operation := "apply"
    idempotency_key := "k1", target := .undef, payload := .null }

/-- A record whose single task already succeeded and whose request status
is executed (both terminal). -/
def succeededRecord : RequestRecord :=
  { request_id := "r1"
    envelope := envK1
    plan := some ⟨[{ id := "t1", backend := "mock", action := "a" }]⟩
    results := some [{ task_id := "t1", backend := "mock", status := .succeeded
                       external_id := some "E", started_at := some "T0"
                       finished_at := some "T0" }]
    status := .executed
    created_at := "T0"
    updated_at := "T0" }

/-- C1: the spec requires that a callback arriving for a task whose result
is already terminal is dropped idempotently and that neither the task nor
the request leaves a terminal status; the callback fold in server.js has
no terminal-state guard, so a callback with status running moves a
succeeded task result (and its executed request) back to running. This
theorem evaluates the callback fold at that failing input. -/
theorem c1_terminal_status_reopened :
    succeededRecord.status = .executed
    ∧ (succeededRecord.results.getD []).map (fun r => (r.task_id, r.status))
        = [("t1", .succeeded)]
    ∧ ((callbackFold succeededRecord "t1" "mock" "E"
          { status := some "running" } "T1").1.map fun r => (r.task_id, r.status))
        = [("t1", .running)]
    ∧ (callbackFold succeededRecord "t1" "mock" "E"
          { status := some "running" } "T1").2 = .running := by
  exact ⟨rfl, rfl, rfl, rfl⟩

/-- C3: the spec requires that after A fails in plan A → B → C, the queued
downstream tasks B and C become canceled; the code runs the cancellation
sweep only once, before the scheduling loop, and never re-runs it after a
pass, so executePlan returns with B and C still queued (their adapters are
indeed never invoked: the only invocation is A). This theorem evaluates
executePlan at that failing input. -/
theorem c3_no_cancellation_after_failure :
    (executePlan regFailA ⟨[taskA, taskB, taskC]⟩ [] "T").map
      (fun o => (o.results.map fun r => (r.task_id, r.status),
                 o.status, o.invocations.map (·.1.id)))
    = .ok ([("A", .failed), ("B", .queued), ("C", .queued)], .failed, ["A"]) := by
  rfl

/-- A single task that depends on itself. -/
def selfLoopTask : ExecutionTask :=
  { id := "A", backend := "mock", action := "a", depends_on := ["A"] }

/-- C4: the spec requires any cycle (including a self-dependency) and any
dependency on an unknown id to be rejected with InvalidPlan before any
adapter runs; topoSortTasks returns plans with at most one task without
validating them, so a single self-looping task (and a single task with an
unknown dependency) is accepted, no error is raised, no adapter is ever
invoked, and the plan is left running with the task stuck queued. -/
theorem c4_single_task_cycle_not_rejected :
    topoSortTasks [selfLoopTask] = .ok [selfLoopTask]
    ∧ (executePlan regFailA ⟨[selfLoopTask]⟩ [] "T").map
        (fun o => (o.results.map fun r => (r.task_id, r.status),
                   o.status, o.invocations.length))
      = .ok ([("A", .queued)], .running, 0)
    ∧ topoSortTasks [{ id := "A", backend := "mock", action := "a"
                       depends_on := ["X"] }]
      = .ok [{ id := "A", backend := "mock", action := "a", depends_on := ["X"] }] := by
  exact ⟨rfl, rfl, rfl⟩

/-- C6: the spec requires finished_at to be set exactly when the status is
terminal (succeeded, failed or canceled), and normalization to default it
to the current time for any terminal status; both the engine normalization
and the callback fold only default finished_at for succeeded and failed,
so a canceled result produced by either path carries no finished_at. This
theorem evaluates both paths at that failing input. -/
theorem c6_canceled_without_finished_at :
    (normalizeAdapterResult taskA "T" (defaultEntry taskA)
        { status := .canceled }).status = .canceled
    ∧ (normalizeAdapterResult taskA "T" (defaultEntry taskA)
        { status := .canceled }).finished_at = none
    ∧ ((callbackMergeResults
          [{ task_id := "t1", backend := "mock", status := .running
             external_id := some "E", started_at := some "T0" }]
          "t1" "mock" "E" { status := some "canceled" } "T1").map
        fun r => (r.status, r.finished_at))
      = [(.canceled, none)] := by
  exact ⟨rfl, rfl, rfl⟩

/-! ## C2: idempotent admission -/

/-- C2 (amended): when admission of a valid envelope finds a stored record
under its idempotency key, then: with equal fingerprints and a stored
status other than denied, the handler answers 202 with the existing
request_id and idempotent_replay=true; with equal fingerprints and a
denied record, it answers the 403 policy-denied response referencing the
existing request_id (not the replay response); with different
fingerprints, it answers 409 with the existing request_id. In all three
cases the store is unchanged and the translator pipeline is not
invoked. -/
theorem c2_idempotent_admission
    (translate : XCFGEnvelope → Except String ExecutionPlan)
    (policyEval : XCFGEnvelope → ExecutionPlan → PolicyOutcome)
    (freshId now : String) (store : StoreState) (body : XCFGEnvelope)
    (existing : RequestRecord)
    (hfind : findByIdempotencyKey store body.idempotency_key = some existing) :
    (fingerprintEnvelope existing.envelope = fingerprintEnvelope body →
      (existing.status ≠ .denied →
        handlePostRequests translate policyEval freshId now store body
          = (.replay202 existing.request_id existing.status, store, false))
      ∧ (existing.status = .denied →
        handlePostRequests translate policyEval freshId now store body
          = (.deniedExisting403 existing.request_id, store, false)))
    ∧ (fingerprintEnvelope existing.envelope ≠ fingerprintEnvelope body →
        handlePostRequests translate policyEval freshId now store body
          = (.conflict409 existing.request_id, store, false)) := by
  constructor
  · intro hfp
    constructor
    · intro hnd
      simp only [handlePostRequests, hfind]
      rw [if_neg (fun h => h hfp), if_neg hnd]
    · intro hd
      simp only [handlePostRequests, hfind]
      rw [if_neg (fun h => h hfp), if_pos hd]
  · intro hfp
    simp only [handlePostRequests, hfind]
    rw [if_pos hfp]

/-- Witness for C2 at a concrete input: a store holding a planned record
under key k1; re-submitting the same envelope yields the replay response,
an unchanged store, and no translator invocation. -/
theorem c2_idempotent_admission_witness :
    findByIdempotencyKey
        ⟨[("r1", { request_id := "r1", envelope := envK1, status := .planned
                   created_at := "T0", updated_at := "T0" })],
         [("k1", "r1")]⟩ "k1"
      = some { request_id := "r1", envelope := envK1, status := .planned
               created_at := "T0", updated_at := "T0" }
    ∧ handlePostRequests (fun _ => .ok ⟨[]⟩) (fun _ _ => ⟨false, []⟩) "rX" "T1"
        ⟨[("r1", { request_id := "r1", envelope := envK1, status := .planned
                   created_at := "T0", updated_at := "T0" })],
         [("k1", "r1")]⟩ envK1
      = (.replay202 "r1" .planned,
         ⟨[("r1", { request_id := "r1", envelope := envK1, status := .planned
                    created_at := "T0", updated_at := "T0" })],
          [("k1", "r1")]⟩, false) := by
  refine ⟨rfl, ?_⟩
  have h := (c2_idempotent_admission (fun _ => .ok ⟨[]⟩) (fun _ _ => ⟨false, []⟩)
    "rX" "T1"
    ⟨[("r1", { request_id := "r1", envelope := envK1, status := .planned
               created_at := "T0", updated_at := "T0" })],
     [("k1", "r1")]⟩ envK1
    { request_id := "r1", envelope := envK1, status := .planned
      created_at := "T0", updated_at := "T0" } rfl).1 rfl
  exact h.1 (by decide)

/-- Counterexample for C2 as stated: with a stored record in status denied
and an equal fingerprint, admission answers the 403 policy-denied
response, not the idempotent_replay response the claim promises for every
fingerprint match. -/
theorem c2_denied_match_counterexample :
    handlePostRequests (fun _ => .ok ⟨[]⟩) (fun _ _ => ⟨false, []⟩) "rX" "T1"
        ⟨[("r1", { request_id := "r1", envelope := envK1, status := .denied
                   created_at := "T0", updated_at := "T0" })],
         [("k1", "r1")]⟩ envK1
      = (.deniedExisting403 "r1",
         ⟨[("r1", { request_id := "r1", envelope := envK1, status := .denied
                    created_at := "T0", updated_at := "T0" })],
          [("k1", "r1")]⟩, false)
    ∧ ∀ st : RequestStatus,
        PostResponse.deniedExisting403 "r1" ≠ PostResponse.replay202 "r1" st := by
  refine ⟨rfl, ?_⟩
  intro st
  intro h
  cases h

/-! ## C5: status roll-up -/

theorem any_map_general {α β : Type} (f : α → β) (l : List α) (p : β → Bool) :
    (l.map f).any p = l.any (p ∘ f) := by
  induction l with
  | nil => rfl
  | cons x xs ih => simp [ih]

/-- The roll-up cascade as a function of the plan task ids and the
(task_id, status) projections of the results, in the claimed order, with
the third clause also counting a plan task that has no result as
running. -/
def rollupTable (ids : List String) (statuses : List (String × TaskStatus)) :
    RequestStatus :=
  if statuses.any (fun p => p.2 = .failed || p.2 = .canceled) then .failed
  else if ids.all (fun id =>
      match statuses.find? (·.1 = id) with
      | some p => p.2 = .succeeded
      | none => false) then .executed
  else if ids.any (fun id =>
      match statuses.find? (·.1 = id) with
      | some p => p.2 = .running || p.2 = .queued
      | none => true) then .running
  else .executed

/-- C5 (amended): rollupStatus is a pure function of the plan's task ids
and the (task_id, status) pairs of the results, and equals the claimed
cascade - any failed or canceled result gives failed, else all plan tasks
with succeeded results give executed, else some result running or queued
or some plan task without a result gives running, else executed - and an
empty plan with no results rolls up to executed. -/
theorem c5_rollup_pure_table (plan : ExecutionPlan) (results : List TaskResult) :
    rollupStatus plan results
      = rollupTable (plan.tasks.map (·.id))
          (results.map fun r => (r.task_id, r.status))
    ∧ rollupStatus ⟨[]⟩ [] = .executed := by
  refine ⟨?_, rfl⟩
  unfold rollupStatus rollupTable
  have hfind : ∀ id : String,
      (results.map fun r => (r.task_id, r.status)).find? (·.1 = id)
        = Option.map (fun r => (r.task_id, r.status))
            (results.find? fun r => r.task_id = id) := by
    intro id
    rw [List.find?_map]
    rfl
  have hA : (results.map fun r => (r.task_id, r.status)).any
      (fun p => p.2 = .failed || p.2 = .canceled)
      = results.any (fun r => r.status = .failed || r.status = .canceled) := by
    rw [any_map_general]
    rfl
  have hBall : (plan.tasks.map (·.id)).all (fun id =>
      match (results.map fun r => (r.task_id, r.status)).find? (·.1 = id) with
      | some p => p.2 = TaskStatus.succeeded
      | none => false)
      = plan.tasks.all (fun t =>
        match results.find? (fun r => r.task_id = t.id) with
        | some r => r.status = TaskStatus.succeeded
        | none => false) := by
    induction plan.tasks with
    | nil => rfl
    | cons t ts ih =>
      simp only [List.map_cons, List.all_cons, ih]
      congr 1
      rw [hfind t.id]
      cases results.find? fun r => r.task_id = t.id <;> rfl
  have hCany : (plan.tasks.map (·.id)).any (fun id =>
      match (results.map fun r => (r.task_id, r.status)).find? (·.1 = id) with
      | some p => p.2 = TaskStatus.running || p.2 = TaskStatus.queued
      | none => true)
      = plan.tasks.any (fun t =>
        match results.find? (fun r => r.task_id = t.id) with
        | some r => r.status = TaskStatus.running || r.status = TaskStatus.queued
        | none => true) := by
    induction plan.tasks with
    | nil => rfl
    | cons t ts ih =>
      simp only [List.map_cons, List.any_cons, ih]
      congr 1
      rw [hfind t.id]
      cases results.find? fun r => r.task_id = t.id <;> rfl
  rw [hA, hBall, hCany]
  by_cases ha : results.any (fun r => r.status = .failed || r.status = .canceled)
  · rw [if_pos ha, if_pos ha]
  · rw [if_neg ha, if_neg ha]
    by_cases hb : plan.tasks.all (fun t =>
        match results.find? (fun r => r.task_id = t.id) with
        | some r => r.status = TaskStatus.succeeded
        | none => false)
    · rw [if_pos hb]
      cases htasks : plan.tasks with
      | nil =>
        simp only [htasks, List.isEmpty_nil, Bool.not_true, Bool.false_and,
          List.any_nil]
        rfl
      | cons t ts =>
        have : (!(t :: ts).isEmpty && (t :: ts).all (fun t =>
            match results.find? (fun r => r.task_id = t.id) with
            | some r => r.status = TaskStatus.succeeded
            | none => false)) = true := by
          rw [htasks] at hb
          simp only [List.isEmpty_cons, Bool.not_false, Bool.true_and, hb]
        rw [htasks] at *
        rw [if_pos this]
    · rw [if_neg hb]
      have : (!plan.tasks.isEmpty && plan.tasks.all (fun t =>
          match results.find? (fun r => r.task_id = t.id) with
          | some r => r.status = TaskStatus.succeeded
          | none => false)) = false := by
        cases h2 : plan.tasks.all (fun t =>
            match results.find? (fun r => r.task_id = t.id) with
            | some r => r.status = TaskStatus.succeeded
            | none => false)
        · simp
        · exact absurd h2 hb
      rw [if_neg (by simp [this])]

/-- The roll-up cascade exactly as the claim words it: the third clause
reads only the results (some result running or queued), with no case for
a plan task that lacks a result. -/
def rollupClaimed (ids : List String) (statuses : List (String × TaskStatus)) :
    RequestStatus :=
  if statuses.any (fun p => p.2 = .failed || p.2 = .canceled) then .failed
  else if ids.all (fun id => statuses.any fun p => p.1 = id && p.2 = .succeeded) then .executed
  else if statuses.any (fun p => p.2 = .running || p.2 = .queued) then .running
  else .executed

/-- Counterexample for C5 as stated: a one-task plan with an empty results
list rolls up to running in the code (a task with no result counts as
pending), while the cascade as the claim words it would fall through to
executed. -/
theorem c5_missing_result_counterexample :
    rollupStatus ⟨[taskA]⟩ [] = .running
    ∧ rollupClaimed ["A"] [] = .executed := by
  exact ⟨rfl, rfl⟩

/-! ## C7: listByStatus -/

theorem collectByStatus_eq_take (allowed : List RequestStatus) (limit : Nat) :
    ∀ (l : List RequestRecord) (acc : List RequestRecord),
      acc.length < max limit 1 →
      collectByStatus allowed limit l acc
        = acc ++ (l.filter fun r => allowed.contains r.status).take
            (max limit 1 - acc.length) := by
  intro l
  induction l with
  | nil => intro acc _; simp [collectByStatus]
  | cons r rest ih =>
    intro acc hacc
    rw [collectByStatus]
    by_cases hm : allowed.contains r.status
    · rw [if_pos hm, List.filter_cons, if_pos hm]
      by_cases hbrk : limit ≤ (acc ++ [r]).length
      · rw [if_pos hbrk]
        have hone : max limit 1 - acc.length = 1 := by
          simp only [List.length_append, List.length_cons, List.length_nil] at hbrk
          omega
        rw [hone, List.take_succ_cons, List.take_zero]
      · rw [if_neg hbrk]
        have hlt : (acc ++ [r]).length < max limit 1 := by
          simp only [List.length_append, List.length_cons, List.length_nil] at hbrk ⊢
          omega
        rw [ih (acc ++ [r]) hlt]
        have hsucc : max limit 1 - acc.length
            = (max limit 1 - (acc ++ [r]).length) + 1 := by
          simp only [List.length_append, List.length_cons, List.length_nil] at hbrk ⊢
          omega
        rw [hsucc, List.take_succ_cons, List.append_assoc]
        rfl
    · rw [if_neg hm, List.filter_cons, if_neg hm]
      exact ih acc hacc

/-- C7 (amended): listByStatus returns exactly the matching records among
the first max(limit, 1) matching records in store insertion order (the
length check runs after the push, so even limit 0 returns one matching
record), sorted by ascending created_at. Only when insertion order agrees
with created_at order - which holds for every record the server itself
creates, since created_at is stamped at insertion - are these the limit
oldest matching records. -/
theorem c7_listByStatus_sorted_take (records : List RequestRecord)
    (statuses : List RequestStatus) (limit : Nat) :
    List.Perm (listByStatus records statuses limit)
        ((records.filter fun r => statuses.contains r.status).take (max limit 1))
    ∧ List.Sorted createdLe (listByStatus records statuses limit) := by
  constructor
  · unfold listByStatus
    have h := collectByStatus_eq_take statuses limit records []
      (Nat.lt_of_lt_of_le Nat.zero_lt_one (le_max_right limit 1))
    simp only [List.length_nil, Nat.sub_zero, List.nil_append] at h
    rw [← h]
    exact List.perm_insertionSort createdLe _
  · exact List.sorted_insertionSort createdLe _

/-- Two queued records whose insertion order disagrees with created_at
order: the record inserted first was created later. -/
def newerFirstRecord : RequestRecord :=
  { request_id := "r1", envelope := envK1, status := .queued
    created_at := "2025-02-01", updated_at := "2025-02-01" }

/-- The record inserted second, created earlier. -/
def olderSecondRecord : RequestRecord :=
  { request_id := "r2", envelope := envK1, status := .queued
    created_at := "2025-01-01", updated_at := "2025-01-01" }

/-- Counterexample for C7 as stated: with two queued records whose
insertion order disagrees with created_at order and limit 1, listByStatus
keeps the first-inserted record and drops the one with the smallest
created_at, because the collection loop truncates in insertion order
before sorting. -/
theorem c7_truncation_counterexample :
    (listByStatus [newerFirstRecord, olderSecondRecord] [.queued] 1).map
        (·.request_id) = ["r1"]
    ∧ olderSecondRecord.status = .queued
    ∧ keyLt olderSecondRecord.created_at newerFirstRecord.created_at := by
  refine ⟨rfl, rfl, ?_⟩
  decide

/-! ## C10: seeding -/

/-- Whether a seeding entry survives the three guards of the first
seeding loop against the given plan task ids. -/
def isKeptEntry (taskIds : List String) : SeedEntry → Bool
  | .result r => taskIds.contains r.task_id
  | _ => false

/-- Whether one seeding entry is the kept entry for the given task id. -/
def keptEntryFor (taskIds : List String) (id : String) : SeedEntry → Option TaskResult
  | .notObject => none
  | .noStringTaskId => none
  | .result r =>
    if taskIds.contains r.task_id && r.task_id = id then some r else none

/-- The entry the seeded map holds for a task id: the last entry of
existingResults that is an object whose string task_id names that plan
task. -/
def keptFor (taskIds : List String) (id : String) : List SeedEntry → Option TaskResult
  | [] => none
  | e :: rest =>
    match keptFor taskIds id rest with
    | some r => some r
    | none => keptEntryFor taskIds id e

theorem seedInsertValid_single (taskIds : List String) (m : ResMap) (id : String)
    (e : SeedEntry) :
    (seedInsertValid taskIds m e) id
      = match keptEntryFor taskIds id e with
        | some r => some r
        | none => m id := by
  cases e with
  | notObject => rfl
  | noStringTaskId => rfl
  | result r =>
    rw [seedInsertValid, keptEntryFor]
    by_cases hc : taskIds.contains r.task_id
    · have hmem : r.task_id ∈ taskIds := by simpa using hc
      rw [if_pos hc]
      by_cases hid : r.task_id = id
      · subst hid
        simp [hmem, rmset]
      · have hid' : ¬(id = r.task_id) := fun h => hid h.symm
        simp [hmem, hid, hid', rmset]
    · have hmem : ¬ r.task_id ∈ taskIds := by simpa using hc
      rw [if_neg hc]
      simp [hmem]

theorem seedInsertValid_foldl (taskIds : List String) :
    ∀ (existing : List SeedEntry) (m : ResMap) (id : String),
      (existing.foldl (seedInsertValid taskIds) m) id
        = match keptFor taskIds id existing with
          | some r => some r
          | none => m id := by
  intro existing
  induction existing with
  | nil => intro m id; rfl
  | cons e rest ih =>
    intro m id
    rw [List.foldl_cons, ih, keptFor]
    cases hrest : keptFor taskIds id rest with
    | some r => rfl
    | none => exact seedInsertValid_single taskIds m id e

theorem keptFor_none_of_not_mem (taskIds : List String) (id : String)
    (hid : ¬ taskIds.contains id) :
    ∀ existing : List SeedEntry, keptFor taskIds id existing = none := by
  intro existing
  induction existing with
  | nil => rfl
  | cons e rest ih =>
    rw [keptFor, ih]
    cases e with
    | notObject => rfl
    | noStringTaskId => rfl
    | result r =>
      rw [keptEntryFor]
      rw [if_neg]
      intro hc
      have h1 := (Bool.and_eq_true _ _).mp hc
      have h2 : r.task_id = id := by simpa using h1.2
      exact hid (h2 ▸ h1.1)

theorem keptFor_filter (taskIds : List String) (id : String) :
    ∀ existing : List SeedEntry,
      keptFor taskIds id (existing.filter (isKeptEntry taskIds))
        = keptFor taskIds id existing := by
  intro existing
  induction existing with
  | nil => rfl
  | cons e rest ih =>
    rw [List.filter_cons]
    by_cases hk : isKeptEntry taskIds e
    · rw [if_pos hk, keptFor, keptFor, ih]
    · rw [if_neg (by simpa using hk), keptFor, ih]
      cases hrest : keptFor taskIds id rest with
      | some r => rfl
      | none =>
        cases e with
        | notObject => rfl
        | noStringTaskId => rfl
        | result r =>
          have hc : ¬ (taskIds.contains r.task_id = true) := by
            simpa [isKeptEntry] using hk
          rw [keptEntryFor, if_neg]
          intro hand
          exact hc ((Bool.and_eq_true _ _).mp hand).1

theorem seedDefaultStep_foldl_some :
    ∀ (tasks : List ExecutionTask) (m : ResMap) (id : String) (r : TaskResult),
      m id = some r → (tasks.foldl seedDefaultStep m) id = some r := by
  intro tasks
  induction tasks with
  | nil => intro m id r h; exact h
  | cons t rest ih =>
    intro m id r h
    rw [List.foldl_cons]
    refine ih _ id r ?_
    rw [seedDefaultStep]
    cases ht : m t.id with
    | some _ => exact h
    | none =>
      simp only [rmset]
      by_cases hid : id = t.id
      · rw [hid] at h; rw [ht] at h; cases h
      · rw [if_neg hid]; exact h

theorem seedDefaultStep_foldl_not_mem :
    ∀ (tasks : List ExecutionTask) (m : ResMap) (id : String),
      ¬ id ∈ tasks.map (·.id) → (tasks.foldl seedDefaultStep m) id = m id := by
  intro tasks
  induction tasks with
  | nil => intro m id _; rfl
  | cons t rest ih =>
    intro m id hid
    rw [List.map_cons] at hid
    have h1 : id ≠ t.id := fun h => hid (h ▸ List.mem_cons_self _ _)
    have h2 : ¬ id ∈ rest.map (·.id) := fun h => hid (List.mem_cons_of_mem _ h)
    rw [List.foldl_cons, ih _ _ h2, seedDefaultStep]
    cases m t.id with
    | some _ => rfl
    | none => simp only [rmset]; rw [if_neg h1]

theorem seedDefaultStep_foldl_mem :
    ∀ (tasks : List ExecutionTask) (m : ResMap) (t : ExecutionTask),
      t ∈ tasks → ((tasks.foldl seedDefaultStep m) t.id).isSome = true := by
  intro tasks
  induction tasks with
  | nil => intro m t h; cases h
  | cons thead rest ih =>
    intro m t hmem
    rw [List.foldl_cons]
    rcases List.mem_cons.mp hmem with heq | hmem2
    · subst heq
      cases ht : m t.id with
      | some r =>
        rw [seedDefaultStep_foldl_some rest _ t.id r (by rw [seedDefaultStep, ht]; exact ht)]
        rfl
      | none =>
        rw [seedDefaultStep_foldl_some rest _ t.id
          { task_id := t.id, backend := t.backend, status := .queued }
          (by rw [seedDefaultStep, ht]; simp [rmset])]
        rfl
    · exact ih _ t hmem2

theorem seedDefaultStep_foldl_none :
    ∀ (tasks : List ExecutionTask) (m : ResMap) (t : ExecutionTask),
      (tasks.map (·.id)).Nodup → t ∈ tasks → m t.id = none →
      (tasks.foldl seedDefaultStep m) t.id
        = some { task_id := t.id, backend := t.backend, status := .queued } := by
  intro tasks
  induction tasks with
  | nil => intro m t _ h; cases h
  | cons thead rest ih =>
    intro m t hnd hmem hnone
    rw [List.map_cons] at hnd
    have hnd2 := List.nodup_cons.mp hnd
    rw [List.foldl_cons]
    rcases List.mem_cons.mp hmem with heq | hmem2
    · subst heq
      refine seedDefaultStep_foldl_some rest _ t.id _ ?_
      rw [seedDefaultStep, hnone]
      simp [rmset]
    · have hne : thead.id ≠ t.id := by
        intro h
        exact hnd2.1 (h ▸ List.mem_map_of_mem (·.id) hmem2)
      refine ih _ t hnd2.2 hmem2 ?_
      rw [seedDefaultStep]
      cases m thead.id with
      | some _ => exact hnone
      | none =>
        simp only [rmset]
        rw [if_neg (fun h => hne h.symm)]
        exact hnone

/-- C10: seeding keeps exactly those entries of existingResults that are
objects whose task_id is a string naming a plan task, reusing the last
such entry per task unchanged; every other entry is silently dropped
(removing them changes nothing, and in particular no audit event depends
on them); and every plan task without a kept entry is seeded with the
queued default carrying its task_id and backend. The seeded map holds
exactly the plan's task ids. -/
theorem c10_seeding (tasks : List ExecutionTask) (existing : List SeedEntry) :
    (seedTaskResults tasks existing
      = seedTaskResults tasks (existing.filter (isKeptEntry (tasks.map (·.id)))))
    ∧ (∀ id : String,
        (seedTaskResults tasks existing id).isSome ↔ id ∈ tasks.map (·.id))
    ∧ ((tasks.map (·.id)).Nodup → ∀ t ∈ tasks,
        seedTaskResults tasks existing t.id
          = some ((keptFor (tasks.map (·.id)) t.id existing).getD
              { task_id := t.id, backend := t.backend, status := .queued })) := by
  refine ⟨?_, ?_, ?_⟩
  · unfold seedTaskResults
    congr 1
    funext id
    rw [seedInsertValid_foldl, seedInsertValid_foldl, keptFor_filter]
  · intro id
    constructor
    · intro hsome
      by_contra hid
      have h1 : (existing.foldl (seedInsertValid (tasks.map (·.id))) (fun _ => none)) id
          = none := by
        rw [seedInsertValid_foldl,
          keptFor_none_of_not_mem _ _ (by simpa using hid)]
      rw [seedTaskResults, seedDefaultStep_foldl_not_mem _ _ _ hid, h1] at hsome
      cases hsome
    · intro hid
      obtain ⟨t, ht, rfl⟩ := List.mem_map.mp hid
      exact seedDefaultStep_foldl_mem tasks _ t ht
  · intro hnd t ht
    rw [seedTaskResults]
    cases hkept : keptFor (tasks.map (·.id)) t.id existing with
    | some r =>
      rw [seedDefaultStep_foldl_some tasks _ t.id r
        (by rw [seedInsertValid_foldl, hkept])]
      rfl
    | none =>
      rw [seedDefaultStep_foldl_none tasks _ t hnd ht
        (by rw [seedInsertValid_foldl, hkept])]
      rfl

/-- Witness for C10 at a concrete input: a malformed entry, an entry for
an unknown task, and two valid entries for task A (the later one wins);
task B gets the queued default, and the junk entries change nothing. -/
theorem c10_seeding_witness :
    (seedTaskResults [taskA, taskB]
        [.notObject,
         .result { task_id := "Z", backend := "mock", status := .failed },
         .result { task_id := "A", backend := "mock", status := .running },
         .result { task_id := "A", backend := "mock", status := .succeeded }]) "A"
      = some { task_id := "A", backend := "mock", status := .succeeded }
    ∧ (seedTaskResults [taskA, taskB]
        [.notObject,
         .result { task_id := "Z", backend := "mock", status := .failed },
         .result { task_id := "A", backend := "mock", status := .running },
         .result { task_id := "A", backend := "mock", status := .succeeded }]) "B"
      = some { task_id := "B", backend := "mock", status := .queued }
    ∧ (seedTaskResults [taskA, taskB]
        [.notObject,
         .result { task_id := "Z", backend := "mock", status := .failed },
         .result { task_id := "A", backend := "mock", status := .running },
         .result { task_id := "A", backend := "mock", status := .succeeded }]) "Z"
      = none := by
  have h := c10_seeding [taskA, taskB]
    [.notObject,
     .result { task_id := "Z", backend := "mock", status := .failed },
     .result { task_id := "A", backend := "mock", status := .running },
     .result { task_id := "A", backend := "mock", status := .succeeded }]
  refine ⟨?_, ?_, ?_⟩
  · exact h.2.2 (by decide) taskA (List.mem_cons_self _ _)
  · exact h.2.2 (by decide) taskB
      (List.mem_cons_of_mem _ (List.mem_cons_self _ _))
  · rfl

/-! ## C9: dispatch guard. Part 1: topoSortTasks yields duplicate-free ids -/

theorem taskById_sound_aux :
    ∀ (tasks : List ExecutionTask) (m : String → Option ExecutionTask),
      (∀ id t, m id = some t → t.id = id) →
      ∀ id t, (tasks.foldl (fun m t => fset m t.id (some t)) m) id = some t → t.id = id := by
  intro tasks
  induction tasks with
  | nil => intro m hm id t h; exact hm id t h
  | cons t' rest ih =>
    intro m hm id t h
    rw [List.foldl_cons] at h
    refine ih _ ?_ id t h
    intro id2 t2 h2
    rw [fset] at h2
    by_cases he : id2 = t'.id
    · rw [if_pos he] at h2
      cases h2
      exact he.symm
    · rw [if_neg he] at h2
      exact hm id2 t2 h2

theorem taskById_sound (tasks : List ExecutionTask) :
    ∀ id t, taskById tasks id = some t → t.id = id :=
  taskById_sound_aux tasks _ (fun _ _ h => by cases h)

/-- The invariant of Kahn's loop: the pending queue together with the ids
already output is duplicate-free, and every one of those ids has a
non-positive current indegree (its indegree reached zero when it was
pushed and indegrees only decrease). -/
def KahnInv (indeg : String → Int) (members : List String) : Prop :=
  members.Nodup ∧ ∀ x ∈ members, indeg x ≤ 0

theorem kahnFold_inv (oids : List String) :
    ∀ (nexts : List String) (indeg : String → Int) (queue : List String),
      KahnInv indeg (queue ++ oids) →
      KahnInv
        (nexts.foldl (fun (acc : (String → Int) × List String) next =>
          let d := acc.1 next - 1
          (fset acc.1 next d, if d = 0 then acc.2 ++ [next] else acc.2))
          (indeg, queue)).1
        ((nexts.foldl (fun (acc : (String → Int) × List String) next =>
          let d := acc.1 next - 1
          (fset acc.1 next d, if d = 0 then acc.2 ++ [next] else acc.2))
          (indeg, queue)).2 ++ oids) := by
  intro nexts
  induction nexts with
  | nil => intro indeg queue h; exact h
  | cons next rest ih =>
    intro indeg queue h
    rw [List.foldl_cons]
    by_cases hd : indeg next - 1 = 0
    · simp only [hd, if_pos]
      refine ih _ _ ?_
      have hfresh : next ∉ queue ++ oids := by
        intro hmem
        have := h.2 next hmem
        omega
      constructor
      · have hperm : List.Perm ((queue ++ [next]) ++ oids) (next :: (queue ++ oids)) := by
          rw [List.append_assoc]
          exact List.perm_middle
        exact hperm.symm.nodup (List.nodup_cons.mpr ⟨hfresh, h.1⟩)
      · intro x hx
        rw [fset]
        by_cases he : x = next
        · rw [if_pos he]
        · rw [if_neg he]
          refine h.2 x ?_
          rw [List.append_assoc] at hx
          rcases List.mem_append.mp hx with h1 | h2
          · exact List.mem_append_left _ h1
          · rcases List.mem_append.mp h2 with h3 | h4
            · exact absurd (List.mem_singleton.mp h3) he
            · exact List.mem_append_right _ h4
    · simp only [hd, if_neg, not_false_iff]
      refine ih _ _ ?_
      constructor
      · exact h.1
      · intro x hx
        rw [fset]
        by_cases he : x = next
        · rw [if_pos he]
          have hle := h.2 x hx
          rw [he] at hle
          omega
        · rw [if_neg he]
          exact h.2 x hx

theorem kahnLoop_nodup (byId : String → Option ExecutionTask)
    (out : String → List String)
    (hsound : ∀ id t, byId id = some t → t.id = id) :
    ∀ (fuel : Nat) (indeg : String → Int) (queue : List String)
      (ordered : List ExecutionTask),
      KahnInv indeg (queue ++ ordered.map (·.id)) →
      ((kahnLoop byId out fuel indeg queue ordered).map (·.id)).Nodup := by
  intro fuel
  induction fuel with
  | zero =>
    intro indeg queue ordered h
    exact (List.nodup_append.mp h.1).2.1
  | succ fuel ih =>
    intro indeg queue ordered h
    cases queue with
    | nil =>
      show ((kahnLoop byId out (fuel + 1) indeg [] ordered).map (·.id)).Nodup
      rw [kahnLoop]
      exact (List.nodup_append.mp h.1).2.1
    | cons id rest =>
      show ((kahnLoop byId out (fuel + 1) indeg (id :: rest) ordered).map (·.id)).Nodup
      rw [kahnLoop]
      cases hbyid : byId id with
      | some t =>
        have hid : t.id = id := hsound id t hbyid
        refine ih _ _ _ (kahnFold_inv _ (out id) indeg rest ?_)
        constructor
        · have hperm : List.Perm (rest ++ (ordered ++ [t]).map (·.id))
              (id :: (rest ++ ordered.map (·.id))) := by
            rw [List.map_append]
            show List.Perm (rest ++ (ordered.map (·.id) ++ [t.id])) _
            rw [hid, ← List.append_assoc]
            exact List.perm_append_singleton id (rest ++ ordered.map (·.id))
          exact hperm.symm.nodup (by simpa using h.1)
        · intro x hx
          refine h.2 x ?_
          rw [List.map_append] at hx
          show x ∈ id :: (rest ++ ordered.map (·.id))
          rcases List.mem_append.mp hx with h1 | h2
          · exact List.mem_cons_of_mem _ (List.mem_append_left _ h1)
          · rcases List.mem_append.mp h2 with h3 | h4
            · exact List.mem_cons_of_mem _ (List.mem_append_right _ h3)
            · have hx2 : x = t.id := by simpa using h4
              rw [hx2, hid]
              exact List.mem_cons_self _ _
      | none =>
        refine ih _ _ _ (kahnFold_inv _ (out id) indeg rest ?_)
        constructor
        · have h1 := h.1
          rw [List.cons_append] at h1
          exact (List.nodup_cons.mp h1).2
        · intro x hx
          exact h.2 x (List.mem_cons_of_mem _ hx)

theorem firstOccurrences_nodup_aux :
    ∀ (l : List String) (acc : List String), acc.Nodup →
      (l.foldl (fun acc x => if acc.contains x then acc else acc ++ [x]) acc).Nodup := by
  intro l
  induction l with
  | nil => intro acc h; exact h
  | cons x rest ih =>
    intro acc h
    rw [List.foldl_cons]
    by_cases hc : acc.contains x
    · rw [if_pos hc]; exact ih acc h
    · rw [if_neg hc]
      refine ih _ ?_
      have hx : x ∉ acc := by simpa using hc
      simp [List.nodup_append, h, hx]

theorem firstOccurrences_nodup (l : List String) : (firstOccurrences l).Nodup :=
  firstOccurrences_nodup_aux l [] List.nodup_nil

theorem topoSortTasks_nodup (tasks : List ExecutionTask) (l : List ExecutionTask)
    (h : topoSortTasks tasks = .ok l) : (l.map (·.id)).Nodup := by
  rw [topoSortTasks] at h
  by_cases hlen : tasks.length ≤ 1
  · rw [if_pos hlen] at h
    cases h
    cases tasks with
    | nil => exact List.nodup_nil
    | cons t rest =>
      cases rest with
      | nil => simp
      | cons t2 rest2 => simp at hlen
  · rw [if_neg hlen] at h
    cases hedges : buildEdges (taskById tasks) tasks with
    | error e => rw [hedges] at h; cases h
    | ok pair =>
      obtain ⟨indeg, out⟩ := pair
      rw [hedges] at h
      dsimp only at h
      by_cases hcheck : (kahnRun tasks indeg out).length ≠ tasks.length
      · rw [if_pos hcheck] at h; cases h
      · rw [if_neg hcheck] at h
        cases h
        refine kahnLoop_nodup (taskById tasks) out (taskById_sound tasks) _ _ _ _ ?_
        constructor
        · simpa using (firstOccurrences_nodup (tasks.map (·.id))).filter _
        · intro x hx
          simp only [List.map_nil, List.append_nil] at hx
          have hz := (List.mem_filter.mp hx).2
          simp only [decide_eq_true_eq] at hz
          omega

/-! ## C9 part 2: the dispatch guard -/

/-- What the claim requires at the moment an adapter is invoked: the
task's current result is queued with no started_at, and every dependency
has a current result with status succeeded. -/
def DispatchReady (t : ExecutionTask) (m : ResMap) : Prop :=
  ∃ r, m t.id = some r ∧ r.status = .queued ∧ r.started_at = none
    ∧ ∀ dep ∈ t.depends_on, ∃ rd, m dep = some rd ∧ rd.status = .succeeded

theorem runnable_ready (tasks : List ExecutionTask) (m : ResMap)
    (t : ExecutionTask) (hsome : (m t.id).isSome = true)
    (hmem : t ∈ listRunnableTasks tasks m) : DispatchReady t m := by
  have hpred := (List.mem_filter.mp hmem).2
  cases hcur : m t.id with
  | none => rw [hcur] at hsome; cases hsome
  | some cur =>
    rw [hcur] at hpred
    simp only [Bool.and_eq_true, decide_eq_true_eq, Option.isNone_iff_eq_none] at hpred
    obtain ⟨⟨hq, hstart⟩, hdeps⟩ := hpred
    refine ⟨cur, hcur, hq, hstart, ?_⟩
    intro dep hdep
    rw [dependenciesSucceeded] at hdeps
    have hall := List.all_eq_true.mp hdeps dep hdep
    cases hdepres : m dep with
    | none => rw [hdepres] at hall; cases hall
    | some rd =>
      rw [hdepres] at hall
      exact ⟨rd, rfl, by simpa using hall⟩

theorem ready_preserved {t : ExecutionTask} {m : ResMap} (k : String) (v : TaskResult)
    (h : DispatchReady t m) (hne : t.id ≠ k) (hdeps : ∀ d ∈ t.depends_on, d ≠ k) :
    DispatchReady t (rmset m k v) := by
  obtain ⟨r, hr, hq, hs, hd⟩ := h
  refine ⟨r, ?_, hq, hs, ?_⟩
  · rw [rmset, if_neg hne]; exact hr
  · intro dep hdep
    obtain ⟨rd, hrd, hrds⟩ := hd dep hdep
    exact ⟨rd, by rw [rmset, if_neg (hdeps dep hdep)]; exact hrd, hrds⟩

theorem ready_dep_clash {h t : ExecutionTask} {m : ResMap}
    (hh : DispatchReady h m) (ht : DispatchReady t m)
    (hdep : h.id ∈ t.depends_on) : False := by
  obtain ⟨r, hr, hq, _, _⟩ := hh
  obtain ⟨_, _, _, _, hd⟩ := ht
  obtain ⟨rd, hrd, hrds⟩ := hd h.id hdep
  rw [hr] at hrd
  cases hrd
  rw [hq] at hrds
  cases hrds

theorem rmset_isSome {m : ResMap} {id : String} (k : String) (v : TaskResult)
    (h : (m id).isSome = true) : ((rmset m k v) id).isSome = true := by
  rw [rmset]
  by_cases he : id = k
  · rw [if_pos he]; rfl
  · rw [if_neg he]; exact h

theorem execPass_preserves_isSome (reg : String → Option Adapter)
    (plan : ExecutionPlan) (orderedTasks : List ExecutionTask) (now : String) :
    ∀ (rl : List ExecutionTask) (m : ResMap) (id : String),
      (m id).isSome = true →
      (((execPass reg plan orderedTasks now rl m).1) id).isSome = true := by
  intro rl
  induction rl with
  | nil => intro m id h; exact h
  | cons task rest ih =>
    intro m id h
    rw [execPass]
    cases hreg : reg task.backend with
    | none => exact ih _ id (rmset_isSome _ _ h)
    | some adapter =>
      cases hexec : adapter.execute task with
      | ok ret =>
        simp only [hexec]
        by_cases hroll : rollupStatus plan (orderedResults orderedTasks
            (rmset m task.id (normalizeAdapterResult task now
              ((m task.id).getD (defaultEntry task)) ret))) = .failed
        · simp only [hroll, if_pos]
          exact rmset_isSome _ _ h
        · simp only [hroll, if_neg, not_false_iff]
          exact ih _ id (rmset_isSome _ _ h)
      | error msg =>
        simp only [hexec]
        by_cases hroll : rollupStatus plan (orderedResults orderedTasks
            (rmset m task.id (failedResult task now
              ((m task.id).getD (defaultEntry task)) msg))) = .failed
        · simp only [hroll, if_pos]
          exact rmset_isSome _ _ h
        · simp only [hroll, if_neg, not_false_iff]
          exact ih _ id (rmset_isSome _ _ h)

theorem ready_rest {task : ExecutionTask} {rest : List ExecutionTask} {m : ResMap}
    (v : TaskResult)
    (hnd : ((task :: rest).map (·.id)).Nodup)
    (hall : ∀ t ∈ task :: rest, DispatchReady t m) :
    ∀ t ∈ rest, DispatchReady t (rmset m task.id v) := by
  intro t ht
  have hnd2 : task.id ∉ rest.map (·.id) ∧ (rest.map (·.id)).Nodup := by
    rw [List.map_cons] at hnd
    exact List.nodup_cons.mp hnd
  have hne : t.id ≠ task.id := by
    intro he
    exact hnd2.1 (he ▸ List.mem_map_of_mem (·.id) ht)
  refine ready_preserved task.id v (hall t (List.mem_cons_of_mem _ ht)) hne ?_
  intro d hd he
  exact ready_dep_clash (hall task (List.mem_cons_self _ _))
    (hall t (List.mem_cons_of_mem _ ht)) (he ▸ hd)

theorem execPass_ready (reg : String → Option Adapter) (plan : ExecutionPlan)
    (orderedTasks : List ExecutionTask) (now : String) :
    ∀ (rl : List ExecutionTask) (m : ResMap),
      (rl.map (·.id)).Nodup →
      (∀ t ∈ rl, DispatchReady t m) →
      ∀ p ∈ (execPass reg plan orderedTasks now rl m).2.2, DispatchReady p.1 p.2 := by
  intro rl
  induction rl with
  | nil =>
    intro m _ _ p hp
    rw [execPass] at hp
    cases hp
  | cons task rest ih =>
    intro m hnd hall p hp
    have hndrest : (rest.map (·.id)).Nodup := by
      rw [List.map_cons] at hnd
      exact (List.nodup_cons.mp hnd).2
    rw [execPass] at hp
    cases hreg : reg task.backend with
    | none =>
      simp only [hreg] at hp
      exact ih _ hndrest (ready_rest _ hnd hall) p hp
    | some adapter =>
      simp only [hreg] at hp
      cases hexec : adapter.execute task with
      | ok ret =>
        simp only [hexec] at hp
        by_cases hroll : rollupStatus plan (orderedResults orderedTasks
            (rmset m task.id (normalizeAdapterResult task now
              ((m task.id).getD (defaultEntry task)) ret))) = .failed
        · simp only [hroll, if_pos] at hp
          have hp2 : p = (task, m) := by simpa using hp
          rw [hp2]
          exact hall task (List.mem_cons_self _ _)
        · simp only [hroll, if_neg, not_false_iff] at hp
          rcases List.mem_cons.mp hp with he | hp2
          · rw [he]
            exact hall task (List.mem_cons_self _ _)
          · exact ih _ hndrest (ready_rest _ hnd hall) p hp2
      | error msg =>
        simp only [hexec] at hp
        by_cases hroll : rollupStatus plan (orderedResults orderedTasks
            (rmset m task.id (failedResult task now
              ((m task.id).getD (defaultEntry task)) msg))) = .failed
        · simp only [hroll, if_pos] at hp
          have hp2 : p = (task, m) := by simpa using hp
          rw [hp2]
          exact hall task (List.mem_cons_self _ _)
        · simp only [hroll, if_neg, not_false_iff] at hp
          rcases List.mem_cons.mp hp with he | hp2
          · rw [he]
            exact hall task (List.mem_cons_self _ _)
          · exact ih _ hndrest (ready_rest _ hnd hall) p hp2

theorem cancelStep_isSome (ts : String) (acc : ResMap × List AuditEvent)
    (task : ExecutionTask) (id : String) (h : (acc.1 id).isSome = true) :
    (((cancelStep ts acc task).1) id).isSome = true := by
  rw [cancelStep]
  cases hcur : acc.1 task.id with
  | none => simp only [hcur]; exact h
  | some current =>
    simp only [hcur]
    by_cases h1 : current.status ≠ TaskStatus.queued
    · rw [if_pos h1]; exact h
    · rw [if_neg h1]
      by_cases h2 : current.started_at.isSome = true
      · rw [if_pos h2]; exact h
      · rw [if_neg h2]
        cases hfind : task.depends_on.find? (fun dep =>
            match acc.1 dep with
            | some depResult =>
              depResult.status = TaskStatus.failed || depResult.status = TaskStatus.canceled
            | none => false) with
        | none => simp only [hfind]; exact h
        | some failedDep => simp only [hfind]; exact rmset_isSome _ _ h

theorem cancelFold_isSome (ts : String) :
    ∀ (tasks : List ExecutionTask) (acc : ResMap × List AuditEvent) (id : String),
      (acc.1 id).isSome = true →
      (((tasks.foldl (cancelStep ts) acc).1) id).isSome = true := by
  intro tasks
  induction tasks with
  | nil => intro acc id h; exact h
  | cons task rest ih =>
    intro acc id h
    rw [List.foldl_cons]
    exact ih _ id (cancelStep_isSome ts acc task id h)

theorem execLoop_ready (reg : String → Option Adapter) (plan : ExecutionPlan)
    (orderedTasks : List ExecutionTask) (now : String)
    (hnd : (orderedTasks.map (·.id)).Nodup) :
    ∀ (fuel : Nat) (m : ResMap),
      (∀ t ∈ orderedTasks, (m t.id).isSome = true) →
      ∀ p ∈ (execLoop reg plan orderedTasks now fuel m).2.2, DispatchReady p.1 p.2 := by
  intro fuel
  induction fuel with
  | zero =>
    intro m _ p hp
    rw [execLoop] at hp
    cases hp
  | succ fuel ih =>
    intro m hcov p hp
    rw [execLoop] at hp
    by_cases hempty : (listRunnableTasks orderedTasks m).isEmpty = true
    · rw [if_pos hempty] at hp; cases hp
    · rw [if_neg hempty] at hp
      have hsub : (listRunnableTasks orderedTasks m).Sublist orderedTasks :=
        List.filter_sublist _
      have hrnd : ((listRunnableTasks orderedTasks m).map (·.id)).Nodup :=
        List.Nodup.sublist (List.Sublist.map (·.id) hsub) hnd
      have hready : ∀ t ∈ listRunnableTasks orderedTasks m, DispatchReady t m := by
        intro t ht
        exact runnable_ready orderedTasks m t (hcov t (List.mem_of_mem_filter ht)) ht
      by_cases hroll : rollupStatus plan (orderedResults orderedTasks
          (execPass reg plan orderedTasks now (listRunnableTasks orderedTasks m) m).1)
          = .failed
      · rw [if_pos hroll] at hp
        exact execPass_ready reg plan orderedTasks now _ m hrnd hready p hp
      · rw [if_neg hroll] at hp
        rcases List.mem_append.mp hp with h1 | h2
        · exact execPass_ready reg plan orderedTasks now _ m hrnd hready p h1
        · refine ih _ ?_ p h2
          intro t ht
          exact execPass_preserves_isSome reg plan orderedTasks now _ _ _ (hcov t ht)

/-- Concrete outcome for the dispatch-guard witness: a single-task plan
whose adapter fails, so exactly one invocation is recorded. -/
def c9OutW : ExecOutcome :=
  (executePlan regFailA ⟨[taskA]⟩ [] "T").toOption.getD ⟨[], .failed, [], []⟩

/-- The single recorded (task, map at dispatch) pair of that run. -/
def c9PairW : ExecutionTask × ResMap :=
  c9OutW.invocations.getD 0 (taskA, fun _ => none)

/-- A concrete result map that marks task A queued and never started. -/
def c9MapW : ResMap :=
  fun id => if id = "A"
    then some { task_id := "A", backend := "mock", status := TaskStatus.queued }
    else none

/-- C9: throughout executePlan a task's adapter is invoked only if, at the
moment of dispatch, the task's current result is queued with no started_at
and every id in its depends_on has a current result with status succeeded
(every recorded (task, map) invocation pair is DispatchReady); and the
runnable set never contains a task with an unsatisfied or missing
dependency result: any task of listRunnableTasks that has a current result
— as every task does throughout executePlan, since seeding covers all plan
tasks and every later step preserves coverage — is DispatchReady. -/
theorem c9_dispatch_guard :
    (∀ (reg : String → Option Adapter) (plan : ExecutionPlan)
       (existing : List SeedEntry) (now : String) (out : ExecOutcome),
       executePlan reg plan existing now = .ok out →
       ∀ p ∈ out.invocations, DispatchReady p.1 p.2)
    ∧ (∀ (tasks : List ExecutionTask) (m : ResMap) (t : ExecutionTask),
        (m t.id).isSome = true → t ∈ listRunnableTasks tasks m →
        DispatchReady t m) := by
  constructor
  · intro reg plan existing now out h
    rw [executePlan] at h
    cases hsort : topoSortTasks plan.tasks with
    | error e =>
      simp only [hsort] at h
      cases h
    | ok orderedTasks =>
      simp only [hsort] at h
      have hnd := topoSortTasks_nodup plan.tasks orderedTasks hsort
      have hcov : ∀ t ∈ orderedTasks,
          (((cancelBlockedTasks orderedTasks
            (seedTaskResults orderedTasks existing) now).1) t.id).isSome = true := by
        intro t ht
        exact cancelFold_isSome now orderedTasks _ t.id
          (seedDefaultStep_foldl_mem orderedTasks _ t ht)
      by_cases hempty : (listRunnableTasks orderedTasks
          (cancelBlockedTasks orderedTasks
            (seedTaskResults orderedTasks existing) now).1).isEmpty = true
      · rw [if_pos hempty] at h
        injection h with h2
        subst h2
        intro p hp
        cases hp
      · rw [if_neg hempty] at h
        injection h with h2
        subst h2
        intro p hp
        exact execLoop_ready reg plan orderedTasks now hnd
          (orderedTasks.length + 1) _ hcov p hp
  · intro tasks m t hsome hmem
    exact runnable_ready tasks m t hsome hmem

/-- Witness: the dispatch guard applied to the concrete failing one-task
run (its single invocation) and to the concrete queued map. -/
theorem c9_dispatch_guard_witness :
    DispatchReady c9PairW.1 c9PairW.2 ∧ DispatchReady taskA c9MapW := by
  constructor
  · exact c9_dispatch_guard.1 regFailA ⟨[taskA]⟩ [] "T" c9OutW (by rfl)
      c9PairW (List.mem_cons_self _ _)
  · exact c9_dispatch_guard.2 [taskA] c9MapW taskA (by rfl)
      (List.mem_cons_self _ _)
